import Mathlib

/-!
Shallow embedding of the reconciliation/aggregation core of the
DroidBase-Supabase-Hub repository (`DataTransformer` in
`src/unnamed/part_001`, and the variant in `src/utils/transformers.ts`).

Modelling conventions:
* JavaScript field values are `JSVal` (string, number, null, undefined);
  a raw row is an association list of field name to value, in key order.
* JavaScript numbers are modelled as exact rationals (`ℚ`); IEEE-754
  rounding and the non-finite values `NaN`/`Infinity` are outside the
  model: `jsNumber` returns `none` where JS would produce `NaN`, and the
  decimal parser recognises plain decimal/exponent literals (the JS
  extras `0x…`, `0o…`, `0b…`, `Infinity` are not exercised by any claim).
* `String()` on a number is exact for integers and terminating decimals
  (up to 20 fractional digits); no verified property stringifies a
  non-integer number.
* `.length` counts code points (JS counts UTF-16 units; identical on the
  ASCII data all claims use).
* `localeCompare`-based sorting is modelled as a code-point-ordered
  insertion sort; every verified property is insensitive to the order of
  the ledger.
* The `details` field produced by `categorizeDetails` is presentation
  glue only, touched by no claim, and is omitted from the record model.
-/

namespace JsModel

/-- JS whitespace characters (the ASCII subset; `\s` also matches some
Unicode spaces that never occur in the claims' data). -/
def wsChar (c : Char) : Bool :=
  c.toNat == 32 || c.toNat == 9 || c.toNat == 10 || c.toNat == 13
    || c.toNat == 11 || c.toNat == 12

/-- `String.prototype.trim`: drop whitespace from both ends. -/
def trimList (l : List Char) : List Char :=
  ((l.dropWhile wsChar).reverse.dropWhile wsChar).reverse

/-- Drop trailing whitespace (the right half of `trim`). -/
def rdropWs (l : List Char) : List Char := (l.reverse.dropWhile wsChar).reverse

def jsTrim (s : String) : String := String.mk (trimList s.toList)

/-- `toUpperCase` on one character (ASCII letters, as the identifiers use). -/
def upChar (c : Char) : Char :=
  if 97 ≤ c.toNat ∧ c.toNat ≤ 122 then Char.ofNat (c.toNat - 32) else c

/-- `toLowerCase` on one character. -/
def lowChar (c : Char) : Char :=
  if 65 ≤ c.toNat ∧ c.toNat ≤ 90 then Char.ofNat (c.toNat + 32) else c

def jsUpper (s : String) : String := String.mk (s.toList.map upChar)

def jsLower (s : String) : String := String.mk (s.toList.map lowChar)

/-- `.replace(/\s+/g, '')`: delete every whitespace character. -/
def stripWsList (l : List Char) : List Char := l.filter (fun c => !wsChar c)

def jsStripWs (s : String) : String := String.mk (stripWsList s.toList)

def isPrefixL : List Char → List Char → Bool
  | [], _ => true
  | _ :: _, [] => false
  | a :: as, b :: bs => a == b && isPrefixL as bs

/-- Substring occurrence test, as in `String.prototype.includes`. -/
def containsL (pat : List Char) : List Char → Bool
  | [] => isPrefixL pat []
  | c :: t => isPrefixL pat (c :: t) || containsL pat t

def containsSub (s pat : String) : Bool := containsL pat.toList s.toList

def digitVal (c : Char) : Option Nat :=
  if 48 ≤ c.toNat ∧ c.toNat ≤ 57 then some (c.toNat - 48) else none

/-- Split a leading run of decimal digits off a character list. -/
def splitDigits : List Char → (List Nat × List Char)
  | [] => ([], [])
  | c :: t =>
    match digitVal c with
    | some d => let p := splitDigits t; (d :: p.1, p.2)
    | none => ([], c :: t)

def digitsToNat (ds : List Nat) : Nat := ds.foldl (fun a d => a * 10 + d) 0

/-- Parse the optional exponent tail of a JS numeric literal; `some e`
when the remaining input is empty or a complete exponent part. -/
def parseExp : List Char → Option Int
  | [] => some 0
  | c :: t =>
    if c == 'e' || c == 'E' then
      let st : (Int × List Char) :=
        match t with
        | '+' :: r => (1, r)
        | '-' :: r => (-1, r)
        | r => (1, r)
      let p := splitDigits st.2
      if p.1.isEmpty || !p.2.isEmpty then none
      else some (st.1 * (digitsToNat p.1 : Int))
    else none

def applyExp (q : ℚ) (e : Int) : ℚ := q * (10 : ℚ) ^ e

/-- Parse an unsigned JS decimal literal (digits, optional fraction,
optional exponent); `none` when the input is not a full match. -/
def parseUnsigned (l : List Char) : Option ℚ :=
  let ip := splitDigits l
  match ip.2 with
  | '.' :: r2 =>
    let fp := splitDigits r2
    if ip.1.isEmpty && fp.1.isEmpty then none
    else
      match parseExp fp.2 with
      | some e =>
        some (applyExp ((digitsToNat ip.1 : ℚ) +
          (digitsToNat fp.1 : ℚ) / (10 : ℚ) ^ fp.1.length) e)
      | none => none
  | _ =>
    if ip.1.isEmpty then none
    else
      match parseExp ip.2 with
      | some e => some (applyExp (digitsToNat ip.1 : ℚ) e)
      | none => none

/-- `Number(string)`: trim, empty means `0`, otherwise a signed decimal
literal; `none` plays the role of `NaN`. -/
def parseNumList (l : List Char) : Option ℚ :=
  match trimList l with
  | [] => some 0
  | '+' :: r => parseUnsigned r
  | '-' :: r => (parseUnsigned r).map Neg.neg
  | r => parseUnsigned r

def jsStrToNum (s : String) : Option ℚ := parseNumList s.toList

/-- A JavaScript field value. -/
inductive JSVal where
  | str (s : String)
  | num (q : ℚ)
  | nullV
  | undefV
deriving Repr, DecidableEq

/-- Decimal expansion digits of `n / d` (with `n < d`), fuel-bounded. -/
def decExpand (n d : Nat) : Nat → List Char
  | 0 => []
  | fuel + 1 =>
    if n = 0 then []
    else Char.ofNat (48 + (n * 10) / d) :: decExpand ((n * 10) % d) d fuel

/-- `String(number)`: exact for integers and terminating decimals. -/
def ratToJsStr (q : ℚ) : String :=
  let sgn := if q < 0 then "-" else ""
  let n := q.num.natAbs
  let d := q.den
  let rem := n % d
  if rem = 0 then sgn ++ Nat.repr (n / d)
  else sgn ++ Nat.repr (n / d) ++ "." ++ String.mk (decExpand rem d 20)

/-- `String(v)` for the values a field can hold. -/
def jsToString : JSVal → String
  | .str s => s
  | .num q => ratToJsStr q
  | .nullV => "null"
  | .undefV => "undefined"

/-- JS truthiness of a field value. -/
def jsTruthy : JSVal → Bool
  | .str s => !(s == "")
  | .num q => !(q == 0)
  | .nullV => false
  | .undefV => false

/-- `Number(v)`; `none` plays the role of `NaN`. -/
def jsNumber : JSVal → Option ℚ
  | .num q => some q
  | .str s => jsStrToNum s
  | .nullV => some 0
  | .undefV => none

/-- A raw source row: field names to values, in object-key order
(keys are unique, as in a JS object). -/
abbrev RawRec := List (String × JSVal)

/-- Property access `row.key` (`undefined` when absent). -/
def getF (r : RawRec) (k : String) : JSVal :=
  match r.lookup k with
  | some v => v
  | none => .undefV

/-- `a || b` restricted to field values. -/
def jsOr (a b : JSVal) : JSVal := if jsTruthy a then a else b

end JsModel

namespace DT

open JsModel

/-- The fixed noise-word list of `isValidName`. -/
def noiseWords : List String :=
  ["unnamed", "unknown", "null", "n/a", "undefined", "0", "-", ".",
   "none", "false", "nan", "owner", "null value", "tbd", "missing", "payer"]

/-- `DataTransformer.isValidName` (src/unnamed/part_001 lines 12-27). -/
def isValidName (v : JSVal) : Bool :=
  match v with
  | .nullV => false
  | .undefV => false
  | _ =>
    let n := jsTrim (jsToString v)
    if n.toList.length ≤ 1 then false
    else if (jsStrToNum n).isSome && n.toList.length < 10 then false
    else if containsSub n "[ID:" then false
    else !(noiseWords.contains (jsLower n))

/-- `DataTransformer.normalizeId` (src/unnamed/part_001 lines 29-32). -/
def normalizeId : JSVal → Option String
  | .nullV => none
  | .undefV => none
  | v => some (jsStripWs (jsUpper (jsTrim (jsToString v))))

/-- The `assessment_no || assessment_id || property_id || id` chain. -/
def idField (r : RawRec) : JSVal :=
  jsOr (jsOr (jsOr (getF r "assessment_no") (getF r "assessment_id"))
    (getF r "property_id")) (getF r "id")

/-- `DataTransformer.resolveId` (rows are always objects, so the
`!obj` guard of the source is vacuous here). -/
def resolveId (r : RawRec) : Option String := normalizeId (idField r)

def directNameKeys : List String :=
  ["owner_name", "name", "owner", "full_name", "firstname", "lastname",
   "prop_owner", "citizen_name", "taxpayer_name", "payer_name",
   "user_name", "display_name"]

def nameKeywords : List String :=
  ["name", "owner", "citizen", "taxpayer", "payer", "full", "prop_ow"]

/-- `DataTransformer.resolveName`: direct candidates first, then the
case-insensitive keyword scan over all keys in object order. -/
def resolveName (r : RawRec) : Option String :=
  match (directNameKeys.map (getF r)).find? isValidName with
  | some v => some (jsTrim (jsToString v))
  | none =>
    match r.find? (fun kv =>
        nameKeywords.any (fun kw => containsSub (jsLower kv.1) kw)
        && isValidName kv.2) with
    | some kv => some (jsTrim (jsToString kv.2))
    | none => none

def guardianKeys : List String :=
  ["guardian_name", "father_name", "husband_name", "guardian", "father",
   "husband", "so", "wo", "s/o", "w/o", "care_of", "co"]

def guardianKeywords : List String :=
  ["father", "husband", "guardian", "care_of", "s/o", "w/o"]

/-- `DataTransformer.resolveGuardianName`. -/
def resolveGuardianName (r : RawRec) : Option String :=
  match (guardianKeys.map (getF r)).find? isValidName with
  | some v => some (jsTrim (jsToString v))
  | none =>
    match r.find? (fun kv =>
        guardianKeywords.any (fun kw => containsSub (jsLower kv.1) kw)
        && isValidName kv.2) with
    | some kv => some (jsTrim (jsToString kv.2))
    | none => none

/-- Insertion-ordered string map, as a JS `Map` behaves. -/
abbrev SMap := List (String × String)

def mapGet {α : Type} : List (String × α) → String → Option α
  | [], _ => none
  | kv :: t, k => if kv.1 = k then some kv.2 else mapGet t k

/-- `Map.set`: replace in place when the key exists, else append. -/
def mapSet {α : Type} : List (String × α) → String → α → List (String × α)
  | [], k, v => [(k, v)]
  | (k', v') :: t, k, v =>
    if k' = k then (k, v) :: t else (k', v') :: mapSet t k v

/-- Truthiness guard on a `string | null` value (`if (id && …)`,
`if (!id) return`): `""` and `null` both fail. -/
def truthy? : Option String → Option String
  | some s => if s = "" then none else some s
  | none => none

/-- `map.get(id) || dflt`, with `""` falsy. -/
def strOr (o : Option String) (dflt : String) : String :=
  match o with
  | some s => if s = "" then dflt else s
  | none => dflt

/-- Pass-1 step for one owner-registry row (always overwrites). -/
def ownerStep (nm gm : SMap) (o : RawRec) : SMap × SMap :=
  let id := resolveId o
  let name := resolveName o
  let guardian := resolveGuardianName o
  let nm' := match truthy? id, truthy? name with
    | some i, some n => mapSet nm i n
    | _, _ => nm
  let gm' := match truthy? id, truthy? guardian with
    | some i, some g => mapSet gm i g
    | _, _ => gm
  (nm', gm')

/-- Pass-1 step for one assessment row: a name overwrites only a
strictly shorter stored name; a guardian only fills a gap. -/
def assessStep (nm gm : SMap) (a : RawRec) : SMap × SMap :=
  let id := resolveId a
  let name := resolveName a
  let guardian := resolveGuardianName a
  let nm' := match truthy? id, truthy? name with
    | some i, some n =>
      match mapGet nm i with
      | none => mapSet nm i n
      | some s => if s.length < n.length then mapSet nm i n else nm
    | _, _ => nm
  let gm' := match truthy? id, truthy? guardian with
    | some i, some g =>
      match mapGet gm i with
      | none => mapSet gm i g
      | some _ => gm
    | _, _ => gm
  (nm', gm')

/-- Pass 1 of `processMasterData` (part_001): owners, then assessments. -/
def pass1 (owners assessments : List RawRec) : SMap × SMap :=
  assessments.foldl (fun p a => assessStep p.1 p.2 a)
    (owners.foldl (fun p o => ownerStep p.1 p.2 o) ([], []))

/-- The reconciled per-property record (`AssessmentRecord`); the
presentation-only `details` map is omitted from the model. -/
structure AssessRec where
  assessment_no : String
  owner_name : String
  guardian_name : String
  zone_id : String
  demand : ℚ
  collected : ℚ
  pending : ℚ
deriving Repr, DecidableEq

abbrev Registry := List (String × AssessRec)

/-- Pass-2 step 1: seed one ledger entry from an assessment row. -/
def seedStep (nm gm : SMap) (reg : Registry) (a : RawRec) : Registry :=
  match truthy? (resolveId a) with
  | none => reg
  | some id =>
    let finalName := strOr (mapGet nm id) ("Owner [ID:" ++ id ++ "]")
    let finalGuardian := strOr (mapGet gm id) ""
    let zone :=
      if jsTruthy (getF a "cluster_id")
      then jsTrim (jsToString (getF a "cluster_id"))
      else "unassigned"
    mapSet reg id
      { assessment_no := id, owner_name := finalName,
        guardian_name := finalGuardian, zone_id := zone,
        demand := 0, collected := 0, pending := 0 }

/-- `Math.max(0, Number(row.field) || 0)`. -/
def amountOf (r : RawRec) (field : String) : ℚ :=
  max 0 ((jsNumber (getF r field)).getD 0)

/-- Pass-2 step 2: fold one demand row into the ledger. -/
def demandStep (nm gm : SMap) (reg : Registry) (d : RawRec) : Registry :=
  match truthy? (resolveId d) with
  | none => reg
  | some id =>
    let amt := amountOf d "total_demand"
    match mapGet reg id with
    | some r => mapSet reg id { r with demand := r.demand + amt }
    | none =>
      let r : AssessRec :=
        { assessment_no := id,
          owner_name := strOr (mapGet nm id)
            (strOr (resolveName d) ("External [ID:" ++ id ++ "]")),
          guardian_name := strOr (mapGet gm id)
            (strOr (resolveGuardianName d) ""),
          zone_id := "unassigned", demand := 0, collected := 0, pending := 0 }
      mapSet reg id { r with demand := r.demand + amt }

/-- Pass-2 step 3: fold one collection row into the ledger. -/
def collectStep (nm gm : SMap) (reg : Registry) (c : RawRec) : Registry :=
  match truthy? (resolveId c) with
  | none => reg
  | some id =>
    let amt := amountOf c "total_tax"
    match mapGet reg id with
    | some r => mapSet reg id { r with collected := r.collected + amt }
    | none =>
      let r : AssessRec :=
        { assessment_no := id,
          owner_name := strOr (mapGet nm id)
            (strOr (resolveName c) ("Payer [ID:" ++ id ++ "]")),
          guardian_name := strOr (mapGet gm id)
            (strOr (resolveGuardianName c) ""),
          zone_id := "unassigned", demand := 0, collected := 0, pending := 0 }
      mapSet reg id { r with collected := r.collected + amt }

/-- Pass 2 registry construction: seed, fold demands, fold collections. -/
def buildRegistry (nm gm : SMap) (assessments demands collections : List RawRec) :
    Registry :=
  collections.foldl (collectStep nm gm)
    (demands.foldl (demandStep nm gm)
      (assessments.foldl (seedStep nm gm) []))

/-- Code-point lexicographic order, standing in for `localeCompare`
(every verified property is order-insensitive). -/
def lexLe : List Char → List Char → Bool
  | [], _ => true
  | _ :: _, [] => false
  | a :: as, b :: bs =>
    if a.toNat < b.toNat then true
    else if b.toNat < a.toNat then false
    else lexLe as bs

def strLe (a b : String) : Bool := lexLe a.toList b.toList

/-- Step 4: recompute `pending` and sort by owner name. -/
def enrichedOf (reg : Registry) : List AssessRec :=
  List.insertionSort (fun a b => strLe a.owner_name b.owner_name)
    ((reg.map Prod.snd).map (fun r => { r with pending := r.demand - r.collected }))

/-- A master-zone row (`{ id, name }`). -/
structure RawZone where
  id : JSVal
  name : JSVal
deriving Repr, DecidableEq

structure ZoneMetric where
  id : String
  name : JSVal
  recordCount : Nat
  demand : ℚ
  collected : ℚ
  pending : ℚ
deriving Repr, DecidableEq

/-- The base zone list, with the synthetic `unassigned` zone appended
when some record needs it and the master list lacks it. -/
def augmentedZones (zones : List RawZone) (enriched : List AssessRec) :
    List RawZone :=
  if (enriched.any (fun r => r.zone_id == "unassigned"))
      && !(zones.any (fun z => jsToString z.id == "unassigned")) then
    zones ++ [⟨.str "unassigned", .str "External / Unlinked"⟩]
  else zones

/-- Step 5: one `ZoneMetrics` per base zone, by exact match of the
record's `zone_id` against the trimmed zone id. -/
def zoneMetricsOf (zones : List RawZone) (enriched : List AssessRec) :
    List ZoneMetric :=
  (augmentedZones zones enriched).map (fun z =>
    let zId := jsTrim (jsToString z.id)
    let recs := enriched.filter (fun r => r.zone_id == zId)
    let demand := (recs.map AssessRec.demand).sum
    let collected := (recs.map AssessRec.collected).sum
    { id := zId, name := if jsTruthy z.name then z.name else .str "Zone",
      recordCount := recs.length, demand := demand, collected := collected,
      pending := demand - collected })

structure LiveMetrics where
  totalAssessments : Nat
  totalDemand : ℚ
  netCollections : ℚ
  pendingAmount : ℚ
  efficiency : ℚ
deriving Repr, DecidableEq

/-- Step 6: global analytics over the full ledger. -/
def liveMetricsOf (enriched : List AssessRec) : LiveMetrics :=
  let totalDemand := (enriched.map AssessRec.demand).sum
  let totalCollected := (enriched.map AssessRec.collected).sum
  { totalAssessments := enriched.length,
    totalDemand := totalDemand,
    netCollections := totalCollected,
    pendingAmount := totalDemand - totalCollected,
    efficiency := if 0 < totalDemand then totalCollected / totalDemand * 100 else 0 }

structure PMOutput where
  enriched : List AssessRec
  zoneMetrics : List ZoneMetric
  liveMetrics : LiveMetrics
  nameMap : SMap
  guardianMap : SMap
deriving Repr, DecidableEq

/-- `DataTransformer.processMasterData` (src/unnamed/part_001 lines 146-272). -/
def processMasterData (assessments demands collections : List RawRec)
    (zones : List RawZone) (owners : List RawRec := []) : PMOutput :=
  let maps := pass1 owners assessments
  let reg := buildRegistry maps.1 maps.2 assessments demands collections
  let enriched := enrichedOf reg
  { enriched := enriched,
    zoneMetrics := zoneMetricsOf zones enriched,
    liveMetrics := liveMetricsOf enriched,
    nameMap := maps.1, guardianMap := maps.2 }

end DT

namespace TF

/-!
The `src/utils/transformers.ts` variant of `DataTransformer`: identical
helpers, but its pass 1 tracks names only (no guardian map) and adds a
third source — demand and collection rows fill ids still missing a name —
and its records carry no guardian field (modelled as `guardian_name = ""`).
-/

open JsModel DT

/-- Pass-1 owner-registry step of transformers.ts (name only). -/
def ownerStepN (nm : SMap) (o : RawRec) : SMap :=
  match truthy? (resolveId o), truthy? (resolveName o) with
  | some i, some n => mapSet nm i n
  | _, _ => nm

/-- Pass-1 assessment step of transformers.ts (longer name wins). -/
def assessStepN (nm : SMap) (a : RawRec) : SMap :=
  match truthy? (resolveId a), truthy? (resolveName a) with
  | some i, some n =>
    match mapGet nm i with
    | none => mapSet nm i n
    | some s => if s.length < n.length then mapSet nm i n else nm
  | _, _ => nm

/-- Pass-1 fallback step over `[...demands, ...collections]`: fill only
ids with no stored name yet (transformers.ts lines 120-127). -/
def fillStep (nm : SMap) (r : RawRec) : SMap :=
  match truthy? (resolveId r), truthy? (resolveName r) with
  | some i, some n =>
    match mapGet nm i with
    | none => mapSet nm i n
    | some _ => nm
  | _, _ => nm

/-- The full pass-1 name map of transformers.ts. -/
def tfNameMap (owners assessments demands collections : List RawRec) : SMap :=
  (demands ++ collections).foldl fillStep
    (assessments.foldl assessStepN (owners.foldl ownerStepN []))

/-- Pass-2 seed step of transformers.ts (no guardian field). -/
def seedStepT (nm : SMap) (reg : Registry) (a : RawRec) : Registry :=
  match truthy? (resolveId a) with
  | none => reg
  | some id =>
    let finalName := strOr (mapGet nm id) ("Owner [ID:" ++ id ++ "]")
    let zone :=
      if jsTruthy (getF a "cluster_id")
      then jsTrim (jsToString (getF a "cluster_id"))
      else "unassigned"
    mapSet reg id
      { assessment_no := id, owner_name := finalName, guardian_name := "",
        zone_id := zone, demand := 0, collected := 0, pending := 0 }

/-- Pass-2 demand step of transformers.ts. -/
def demandStepT (nm : SMap) (reg : Registry) (d : RawRec) : Registry :=
  match truthy? (resolveId d) with
  | none => reg
  | some id =>
    let amt := amountOf d "total_demand"
    match mapGet reg id with
    | some r => mapSet reg id { r with demand := r.demand + amt }
    | none =>
      let r : AssessRec :=
        { assessment_no := id,
          owner_name := strOr (mapGet nm id)
            (strOr (resolveName d) ("External [ID:" ++ id ++ "]")),
          guardian_name := "",
          zone_id := "unassigned", demand := 0, collected := 0, pending := 0 }
      mapSet reg id { r with demand := r.demand + amt }

/-- Pass-2 collection step of transformers.ts. -/
def collectStepT (nm : SMap) (reg : Registry) (c : RawRec) : Registry :=
  match truthy? (resolveId c) with
  | none => reg
  | some id =>
    let amt := amountOf c "total_tax"
    match mapGet reg id with
    | some r => mapSet reg id { r with collected := r.collected + amt }
    | none =>
      let r : AssessRec :=
        { assessment_no := id,
          owner_name := strOr (mapGet nm id)
            (strOr (resolveName c) ("Payer [ID:" ++ id ++ "]")),
          guardian_name := "",
          zone_id := "unassigned", demand := 0, collected := 0, pending := 0 }
      mapSet reg id { r with collected := r.collected + amt }

def buildRegistryT (nm : SMap) (assessments demands collections : List RawRec) :
    Registry :=
  collections.foldl (collectStepT nm)
    (demands.foldl (demandStepT nm)
      (assessments.foldl (seedStepT nm) []))

structure TFOutput where
  enriched : List AssessRec
  zoneMetrics : List ZoneMetric
  liveMetrics : LiveMetrics
  nameMap : SMap
deriving Repr, DecidableEq

/-- `DataTransformer.processMasterData` of src/utils/transformers.ts. -/
def processMasterData (assessments demands collections : List RawRec)
    (zones : List RawZone) (owners : List RawRec := []) : TFOutput :=
  let nm := tfNameMap owners assessments demands collections
  let reg := buildRegistryT nm assessments demands collections
  let enriched := enrichedOf reg
  { enriched := enriched,
    zoneMetrics := zoneMetricsOf zones enriched,
    liveMetrics := liveMetricsOf enriched,
    nameMap := nm }

end TF

namespace DT

open JsModel

/-- The structural invariant the three pass-2 folds maintain: every entry
is stored under its own id and has non-negative accumulated totals. -/
def RegWf (reg : Registry) : Prop :=
  ∀ kv ∈ reg, kv.2.assessment_no = kv.1 ∧ 0 ≤ kv.2.demand ∧ 0 ≤ kv.2.collected

end DT

namespace TF

open JsModel DT

/-- The name resolved by the first row of a list whose identifier
resolves (truthily) to the given id and that yields a valid name — the
row whose name the pass-1 fallback fold stores for that id. -/
def firstFill (rows : List RawRec) (i : String) : Option String :=
  match rows with
  | [] => none
  | r :: t =>
    match truthy? (resolveId r), truthy? (resolveName r) with
    | some j, some n => if j = i then some n else firstFill t i
    | _, _ => firstFill t i

end TF

namespace JsModel

/-! ### Character and string lemmas -/

theorem toNat_ofNat_valid (n : Nat) (h : n.isValidChar) : (Char.ofNat n).toNat = n := by
  rw [Char.ofNat, dif_pos h]
  simp [Char.ofNatAux, Char.toNat, UInt32.toNat]

theorem upChar_def (c : Char) : upChar c
    = if 97 ≤ c.toNat ∧ c.toNat ≤ 122 then Char.ofNat (c.toNat - 32) else c := rfl

theorem upChar_toNat_of (c : Char) (h : 97 ≤ c.toNat ∧ c.toNat ≤ 122) :
    (upChar c).toNat = c.toNat - 32 := by
  rw [upChar_def, if_pos h]
  exact toNat_ofNat_valid _ (Or.inl (by omega))

theorem upChar_idem (c : Char) : upChar (upChar c) = upChar c := by
  by_cases h : 97 ≤ c.toNat ∧ c.toNat ≤ 122
  · have ht := upChar_toNat_of c h
    have hcond : ¬ (97 ≤ (upChar c).toNat ∧ (upChar c).toNat ≤ 122) := by
      rw [ht]
      omega
    rw [upChar_def (upChar c), if_neg hcond]
  · rw [upChar_def c, if_neg h, upChar_def c, if_neg h]

theorem map_id_of {l : List Char} {f : Char → Char} (h : ∀ c ∈ l, f c = c) :
    l.map f = l := by
  induction l with
  | nil => rfl
  | cons a t ih =>
    rw [List.map_cons, h a (by simp), ih (fun c hc => h c (List.mem_cons_of_mem a hc))]

theorem dropWhile_eq_self_of {p : Char → Bool} {l : List Char}
    (h : ∀ c ∈ l, p c = false) : l.dropWhile p = l := by
  cases l with
  | nil => rfl
  | cons a t => simp [List.dropWhile_cons, h a (by simp)]

theorem trimList_of_noWs {l : List Char} (h : ∀ c ∈ l, wsChar c = false) :
    trimList l = l := by
  unfold trimList
  rw [dropWhile_eq_self_of h,
    dropWhile_eq_self_of (fun c hc => h c (List.mem_reverse.mp hc)),
    List.reverse_reverse]

theorem dropWhile_idem (p : Char → Bool) (l : List Char) :
    (l.dropWhile p).dropWhile p = l.dropWhile p := by
  induction l with
  | nil => rfl
  | cons a t ih =>
    by_cases h : p a = true
    · simp [List.dropWhile_cons, h, ih]
    · simp [List.dropWhile_cons, h]

theorem rdropWs_idem (l : List Char) : rdropWs (rdropWs l) = rdropWs l := by
  unfold rdropWs
  rw [List.reverse_reverse, dropWhile_idem]

theorem dropWhile_append_singleton {c : Char} (h : wsChar c = false) (u : List Char) :
    (u ++ [c]).dropWhile wsChar = u.dropWhile wsChar ++ [c] := by
  induction u with
  | nil => simp [List.dropWhile_cons, h]
  | cons a t ih =>
    by_cases ha : wsChar a = true
    · simp [List.dropWhile_cons, ha, ih]
    · simp [List.dropWhile_cons, ha]

theorem dropWhile_rdropWs_dropWhile (l : List Char) :
    (rdropWs (l.dropWhile wsChar)).dropWhile wsChar = rdropWs (l.dropWhile wsChar) := by
  cases hy : l.dropWhile wsChar with
  | nil => simp [rdropWs]
  | cons c t =>
    have h2 : (c :: t).dropWhile wsChar = c :: t := by
      rw [← hy, dropWhile_idem]
    have hc : wsChar c = false := by
      by_contra hc'
      have hc'' : wsChar c = true := by
        cases hcc : wsChar c with
        | false => exact absurd hcc hc'
        | true => rfl
      rw [List.dropWhile_cons, if_pos hc''] at h2
      have hlen : (t.dropWhile wsChar).length ≤ t.length :=
        (List.dropWhile_sublist wsChar).length_le
      rw [h2] at hlen
      simp at hlen
    have hr : rdropWs (c :: t) = c :: (t.reverse.dropWhile wsChar).reverse := by
      unfold rdropWs
      rw [List.reverse_cons, dropWhile_append_singleton hc, List.reverse_append]
      rfl
    rw [hr]
    simp [List.dropWhile_cons, hc]

theorem trimList_trimList (l : List Char) : trimList (trimList l) = trimList l := by
  have h1 : ∀ m : List Char, trimList m = rdropWs (m.dropWhile wsChar) := fun _ => rfl
  rw [h1 l, h1 (rdropWs (l.dropWhile wsChar)), dropWhile_rdropWs_dropWhile, rdropWs_idem]

theorem length_trimList_le (l : List Char) : (trimList l).length ≤ l.length := by
  unfold trimList
  rw [List.length_reverse]
  calc ((l.dropWhile wsChar).reverse.dropWhile wsChar).length
      ≤ (l.dropWhile wsChar).reverse.length := (List.dropWhile_sublist _).length_le
    _ = (l.dropWhile wsChar).length := List.length_reverse _
    _ ≤ l.length := (List.dropWhile_sublist _).length_le

theorem parseNumList_trimList (l : List Char) :
    parseNumList (trimList l) = parseNumList l := by
  unfold parseNumList
  rw [trimList_trimList]

theorem toList_jsTrim (s : String) : (jsTrim s).toList = trimList s.toList := rfl

theorem jsStrToNum_jsTrim (s : String) : jsStrToNum (jsTrim s) = jsStrToNum s := by
  show parseNumList (jsTrim s).toList = parseNumList s.toList
  rw [toList_jsTrim]
  exact parseNumList_trimList s.toList

theorem mk_toList (s : String) : String.mk s.toList = s := by
  cases s
  rfl

theorem isPrefixL_iff (p : List Char) : ∀ l : List Char,
    isPrefixL p l = true ↔ ∃ t, l = p ++ t := by
  induction p with
  | nil =>
    intro l
    simp [isPrefixL]
  | cons a ps ih =>
    intro l
    cases l with
    | nil =>
      simp [isPrefixL]
    | cons b t =>
      rw [show isPrefixL (a :: ps) (b :: t) = (a == b && isPrefixL ps t) from rfl]
      constructor
      · intro h
        rcases Bool.and_eq_true_iff.mp h with ⟨hab, hp⟩
        rcases (ih t).mp hp with ⟨u, rfl⟩
        exact ⟨u, by rw [beq_iff_eq.mp hab]; simp⟩
      · rintro ⟨u, hu⟩
        injection hu with h1 h2
        subst h1
        exact Bool.and_eq_true_iff.mpr ⟨beq_self_eq_true _, (ih t).mpr ⟨u, h2⟩⟩

theorem containsL_iff (p : List Char) : ∀ l : List Char,
    containsL p l = true ↔ ∃ a b, l = a ++ p ++ b := by
  intro l
  induction l with
  | nil =>
    rw [show containsL p [] = isPrefixL p [] from rfl, isPrefixL_iff]
    constructor
    · rintro ⟨t, ht⟩
      exact ⟨[], t, ht⟩
    · rintro ⟨a, b, hab⟩
      have h0 : a ++ p ++ b = [] := hab.symm
      rw [List.append_assoc] at h0
      rcases List.append_eq_nil.mp h0 with ⟨ha, hpb⟩
      rcases List.append_eq_nil.mp hpb with ⟨hp, hb⟩
      exact ⟨b, by rw [hp, List.nil_append]; exact hb.symm⟩
  | cons c t ih =>
    rw [show containsL p (c :: t) = (isPrefixL p (c :: t) || containsL p t) from rfl]
    rw [Bool.or_eq_true, isPrefixL_iff, ih]
    constructor
    · rintro (⟨u, hu⟩ | ⟨a, b, hab⟩)
      · exact ⟨[], u, hu⟩
      · exact ⟨c :: a, b, by simp [hab]⟩
    · rintro ⟨a, b, hab⟩
      cases a with
      | nil => exact Or.inl ⟨b, by simpa using hab⟩
      | cons x a' =>
        rw [List.cons_append, List.cons_append] at hab
        injection hab with h1 h2
        exact Or.inr ⟨a', b, h2⟩

theorem dropWhile_keeps {c0 : Char} {cs b : List Char} (h : wsChar c0 = false) :
    ∀ a : List Char, ∃ a',
      (a ++ (c0 :: cs) ++ b).dropWhile wsChar = a' ++ (c0 :: cs) ++ b := by
  intro a
  induction a with
  | nil => exact ⟨[], by simp [List.dropWhile_cons, h]⟩
  | cons x a' ih =>
    by_cases hx : wsChar x = true
    · rcases ih with ⟨a'', ha''⟩
      exact ⟨a'', by simpa [List.dropWhile_cons, hx] using ha''⟩
    · exact ⟨x :: a', by simp [List.dropWhile_cons, hx]⟩

theorem trimList_keeps_idTag {l : List Char}
    (h : containsL ("[ID:".toList) l = true) :
    containsL ("[ID:".toList) (trimList l) = true := by
  rcases (containsL_iff _ l).mp h with ⟨a, b, rfl⟩
  have hpat : ("[ID:".toList) = '[' :: ['I', 'D', ':'] := rfl
  rw [hpat] at *
  obtain ⟨a1, h1⟩ := @dropWhile_keeps '[' ['I', 'D', ':'] b (by decide) a
  unfold trimList
  rw [h1]
  have hrev : (a1 ++ '[' :: ['I', 'D', ':'] ++ b).reverse
      = b.reverse ++ (':' :: ['D', 'I', '[']) ++ a1.reverse := by
    simp
  rw [hrev]
  obtain ⟨b1, h2⟩ := @dropWhile_keeps ':' ['D', 'I', '['] a1.reverse (by decide) b.reverse
  rw [h2]
  rw [containsL_iff]
  exact ⟨a1, b1.reverse, by simp⟩

end JsModel

namespace DT

open JsModel

/-! ### Association-map lemmas -/

theorem mapGet_set_self {α : Type} (m : List (String × α)) (k : String) (v : α) :
    mapGet (mapSet m k v) k = some v := by
  induction m with
  | nil => simp [mapSet, mapGet]
  | cons kv t ih =>
    by_cases h : kv.1 = k
    · simp [mapSet, h, mapGet]
    · simpa [mapSet, h, mapGet] using ih

theorem mapGet_set_ne {α : Type} (m : List (String × α)) {k k' : String} (v : α)
    (h : k' ≠ k) : mapGet (mapSet m k v) k' = mapGet m k' := by
  induction m with
  | nil => simp [mapSet, mapGet, Ne.symm h]
  | cons kv t ih =>
    by_cases hk : kv.1 = k
    · subst hk
      simp [mapSet, mapGet, Ne.symm h]
    · by_cases hk' : kv.1 = k'
      · simp [mapSet, hk, mapGet, hk', h]
      · simpa [mapSet, hk, mapGet, hk', h] using ih

theorem mem_mapSet {α : Type} {m : List (String × α)} {k : String} {v : α}
    {x : String × α} (h : x ∈ mapSet m k v) : x = (k, v) ∨ x ∈ m := by
  induction m with
  | nil => simpa [mapSet] using h
  | cons kv t ih =>
    by_cases hk : kv.1 = k
    · rcases (by simpa [mapSet, hk] using h) with h' | h'
      · exact Or.inl h'
      · exact Or.inr (List.mem_cons_of_mem _ h')
    · rcases (by simpa [mapSet, hk] using h) with h' | h'
      · exact Or.inr (by simp [h'])
      · rcases ih h' with h'' | h''
        · exact Or.inl h''
        · exact Or.inr (List.mem_cons_of_mem _ h'')

theorem mapGet_mem {α : Type} {m : List (String × α)} {k : String} {v : α}
    (h : mapGet m k = some v) : (k, v) ∈ m := by
  induction m with
  | nil => simp [mapGet] at h
  | cons kv t ih =>
    by_cases hk : kv.1 = k
    · have h2 : kv.2 = v := by simpa [mapGet, hk] using h
      subst hk
      simp [← h2]
    · exact List.mem_cons_of_mem _ (ih (by simpa [mapGet, hk] using h))

/-! ### Fold invariants and sum lemmas -/

theorem foldl_inv {σ α : Type} {P : σ → Prop} {step : σ → α → σ}
    (h : ∀ s a, P s → P (step s a)) :
    ∀ (l : List α) (s : σ), P s → P (l.foldl step s)
  | [], _, hs => hs
  | a :: t, s, hs => foldl_inv h t (step s a) (h s a hs)

theorem sum_map_add {α : Type} (l : List α) (f g : α → ℚ) :
    (l.map (fun x => f x + g x)).sum = (l.map f).sum + (l.map g).sum := by
  induction l with
  | nil => simp
  | cons a t ih => simp [ih]; ring

theorem sum_map_sub {α : Type} (l : List α) (f g : α → ℚ) :
    (l.map (fun x => f x - g x)).sum = (l.map f).sum - (l.map g).sum := by
  induction l with
  | nil => simp
  | cons a t ih => simp [ih]; ring

theorem sum_filter_eq_sum_ite {α : Type} (l : List α) (p : α → Bool) (f : α → ℚ) :
    ((l.filter p).map f).sum = (l.map (fun x => if p x then f x else 0)).sum := by
  induction l with
  | nil => simp
  | cons a t ih =>
    by_cases h : p a <;> simp [List.filter_cons, h, ih]

/-- Summing the per-zone fiber sums counts each record once per occurrence
of its key in the key list. -/
theorem sum_fibers_count (keys : List String) (rs : List AssessRec) (f : AssessRec → ℚ) :
    (keys.map (fun k => ((rs.filter (fun r => r.zone_id == k)).map f).sum)).sum
      = (rs.map (fun r => (keys.count r.zone_id : ℚ) * f r)).sum := by
  induction keys with
  | nil => simp
  | cons k t ih =>
    have hpt : ∀ r ∈ rs, ((((k :: t).count r.zone_id : ℕ) : ℚ) * f r)
        = (((t.count r.zone_id : ℕ) : ℚ) * f r)
          + (if r.zone_id == k then f r else 0) := by
      intro r _
      by_cases hbe : r.zone_id = k
      · subst hbe
        simp [List.count_cons]
        ring
      · simp [List.count_cons, hbe, Ne.symm hbe]
    simp only [List.map_cons, List.sum_cons, ih]
    rw [sum_filter_eq_sum_ite, List.map_congr_left hpt, sum_map_add]
    exact add_comm _ _

/-- Partition: when every record's zone key occurs exactly once in the key
list, the fiber sums add up to the plain sum. -/
theorem sum_fibers (keys : List String) (rs : List AssessRec) (f : AssessRec → ℚ)
    (h1 : ∀ r ∈ rs, keys.count r.zone_id = 1) :
    (keys.map (fun k => ((rs.filter (fun r => r.zone_id == k)).map f).sum)).sum
      = (rs.map f).sum := by
  rw [sum_fibers_count]
  have hpt : ∀ r ∈ rs, ((keys.count r.zone_id : ℚ) * f r) = f r := by
    intro r hr
    simp [h1 r hr]
  rw [List.map_congr_left hpt]

/-! ### Registry and ledger invariants -/

theorem amountOf_nonneg (r : RawRec) (f : String) : 0 ≤ amountOf r f :=
  le_max_left 0 _

theorem truthy?_ne_empty {o : Option String} {s : String}
    (h : truthy? o = some s) : s ≠ "" := by
  cases o with
  | none => simp [truthy?] at h
  | some t =>
    by_cases ht : t = ""
    · simp [truthy?, ht] at h
    · have : t = s := by simpa [truthy?, ht] using h
      exact this ▸ ht

theorem strOr_of_ne_empty {s : String} (h : s ≠ "") (d : String) :
    strOr (some s) d = s := by
  simp [strOr, h]

theorem mem_enrichedOf {reg : Registry} {r : AssessRec} :
    r ∈ enrichedOf reg ↔
      ∃ x ∈ reg.map Prod.snd, r = { x with pending := x.demand - x.collected } := by
  unfold enrichedOf
  rw [(List.perm_insertionSort _ _).mem_iff]
  simp only [List.mem_map]
  constructor
  · rintro ⟨x, hx, rfl⟩
    exact ⟨x, hx, rfl⟩
  · rintro ⟨x, hx, rfl⟩
    exact ⟨x, hx, rfl⟩

theorem regWf_nil : RegWf [] := by
  intro kv h
  simp at h

theorem regWf_set {reg : Registry} {k : String} {rec : AssessRec}
    (hw : RegWf reg) (h1 : rec.assessment_no = k)
    (h2 : 0 ≤ rec.demand) (h3 : 0 ≤ rec.collected) : RegWf (mapSet reg k rec) := by
  intro kv hkv
  rcases mem_mapSet hkv with h | h
  · subst h
    exact ⟨h1, h2, h3⟩
  · exact hw kv h

/-! Step-shape equations for the three pass-2 folds. -/

theorem seedStep_none {nm gm : SMap} {reg : Registry} {a : RawRec}
    (h : truthy? (resolveId a) = none) : seedStep nm gm reg a = reg := by
  simp [seedStep, h]

theorem seedStep_some {nm gm : SMap} {reg : Registry} {a : RawRec} {id : String}
    (h : truthy? (resolveId a) = some id) :
    seedStep nm gm reg a = mapSet reg id
      { assessment_no := id,
        owner_name := strOr (mapGet nm id) ("Owner [ID:" ++ id ++ "]"),
        guardian_name := strOr (mapGet gm id) "",
        zone_id := if jsTruthy (getF a "cluster_id")
          then jsTrim (jsToString (getF a "cluster_id")) else "unassigned",
        demand := 0, collected := 0, pending := 0 } := by
  simp [seedStep, h]

theorem demandStep_none {nm gm : SMap} {reg : Registry} {d : RawRec}
    (h : truthy? (resolveId d) = none) : demandStep nm gm reg d = reg := by
  simp [demandStep, h]

theorem demandStep_some_mem {nm gm : SMap} {reg : Registry} {d : RawRec}
    {id : String} {r : AssessRec} (h : truthy? (resolveId d) = some id)
    (hg : mapGet reg id = some r) :
    demandStep nm gm reg d =
      mapSet reg id { r with demand := r.demand + amountOf d "total_demand" } := by
  simp [demandStep, h, hg]

theorem demandStep_some_new {nm gm : SMap} {reg : Registry} {d : RawRec}
    {id : String} (h : truthy? (resolveId d) = some id)
    (hg : mapGet reg id = none) :
    demandStep nm gm reg d = mapSet reg id
      { assessment_no := id,
        owner_name := strOr (mapGet nm id)
          (strOr (resolveName d) ("External [ID:" ++ id ++ "]")),
        guardian_name := strOr (mapGet gm id)
          (strOr (resolveGuardianName d) ""),
        zone_id := "unassigned", demand := 0 + amountOf d "total_demand",
        collected := 0, pending := 0 } := by
  simp [demandStep, h, hg]

theorem collectStep_none {nm gm : SMap} {reg : Registry} {c : RawRec}
    (h : truthy? (resolveId c) = none) : collectStep nm gm reg c = reg := by
  simp [collectStep, h]

theorem collectStep_some_mem {nm gm : SMap} {reg : Registry} {c : RawRec}
    {id : String} {r : AssessRec} (h : truthy? (resolveId c) = some id)
    (hg : mapGet reg id = some r) :
    collectStep nm gm reg c =
      mapSet reg id { r with collected := r.collected + amountOf c "total_tax" } := by
  simp [collectStep, h, hg]

theorem collectStep_some_new {nm gm : SMap} {reg : Registry} {c : RawRec}
    {id : String} (h : truthy? (resolveId c) = some id)
    (hg : mapGet reg id = none) :
    collectStep nm gm reg c = mapSet reg id
      { assessment_no := id,
        owner_name := strOr (mapGet nm id)
          (strOr (resolveName c) ("Payer [ID:" ++ id ++ "]")),
        guardian_name := strOr (mapGet gm id)
          (strOr (resolveGuardianName c) ""),
        zone_id := "unassigned", demand := 0,
        collected := 0 + amountOf c "total_tax", pending := 0 } := by
  simp [collectStep, h, hg]

theorem seedStep_wf (nm gm : SMap) {reg : Registry} (a : RawRec)
    (hw : RegWf reg) : RegWf (seedStep nm gm reg a) := by
  cases h : truthy? (resolveId a) with
  | none => rw [seedStep_none h]; exact hw
  | some id =>
    rw [seedStep_some h]
    exact regWf_set hw rfl le_rfl le_rfl

theorem demandStep_wf (nm gm : SMap) {reg : Registry} (d : RawRec)
    (hw : RegWf reg) : RegWf (demandStep nm gm reg d) := by
  cases h : truthy? (resolveId d) with
  | none => rw [demandStep_none h]; exact hw
  | some id =>
    cases hg : mapGet reg id with
    | some r =>
      rw [demandStep_some_mem h hg]
      have hr := hw (id, r) (mapGet_mem hg)
      refine regWf_set hw ?_ ?_ ?_
      · exact hr.1
      · exact add_nonneg hr.2.1 (amountOf_nonneg d _)
      · exact hr.2.2
    | none =>
      rw [demandStep_some_new h hg]
      refine regWf_set hw rfl ?_ le_rfl
      exact add_nonneg le_rfl (amountOf_nonneg d _)

theorem collectStep_wf (nm gm : SMap) {reg : Registry} (c : RawRec)
    (hw : RegWf reg) : RegWf (collectStep nm gm reg c) := by
  cases h : truthy? (resolveId c) with
  | none => rw [collectStep_none h]; exact hw
  | some id =>
    cases hg : mapGet reg id with
    | some r =>
      rw [collectStep_some_mem h hg]
      have hr := hw (id, r) (mapGet_mem hg)
      refine regWf_set hw ?_ ?_ ?_
      · exact hr.1
      · exact hr.2.1
      · exact add_nonneg hr.2.2 (amountOf_nonneg c _)
    | none =>
      rw [collectStep_some_new h hg]
      refine regWf_set hw rfl le_rfl ?_
      exact add_nonneg le_rfl (amountOf_nonneg c _)

theorem buildRegistry_wf (nm gm : SMap) (A D C : List RawRec) :
    RegWf (buildRegistry nm gm A D C) := by
  unfold buildRegistry
  exact foldl_inv (fun s c hs => collectStep_wf nm gm c hs) _ _
    (foldl_inv (fun s d hs => demandStep_wf nm gm d hs) _ _
      (foldl_inv (fun s a hs => seedStep_wf nm gm a hs) _ _ regWf_nil))

theorem enriched_nonneg (nm gm : SMap) (A D C : List RawRec) :
    ∀ r ∈ enrichedOf (buildRegistry nm gm A D C),
      0 ≤ r.demand ∧ 0 ≤ r.collected := by
  intro r hr
  rcases mem_enrichedOf.mp hr with ⟨x, hx, rfl⟩
  rcases List.mem_map.mp hx with ⟨kv, hkv, rfl⟩
  have hw := buildRegistry_wf nm gm A D C kv hkv
  exact ⟨hw.2.1, hw.2.2⟩

/-! ### Projection equations of the assembled pipeline -/

theorem pmd_enriched (A D C : List RawRec) (Z : List RawZone) (O : List RawRec) :
    (processMasterData A D C Z O).enriched
      = enrichedOf (buildRegistry (pass1 O A).1 (pass1 O A).2 A D C) := rfl

theorem pmd_zoneMetrics (A D C : List RawRec) (Z : List RawZone) (O : List RawRec) :
    (processMasterData A D C Z O).zoneMetrics
      = zoneMetricsOf Z (processMasterData A D C Z O).enriched := rfl

theorem pmd_liveMetrics (A D C : List RawRec) (Z : List RawZone) (O : List RawRec) :
    (processMasterData A D C Z O).liveMetrics
      = liveMetricsOf (processMasterData A D C Z O).enriched := rfl

theorem pmd_nameMap (A D C : List RawRec) (Z : List RawZone) (O : List RawRec) :
    (processMasterData A D C Z O).nameMap = (pass1 O A).1 := rfl

theorem liveMetricsOf_totalDemand (e : List AssessRec) :
    (liveMetricsOf e).totalDemand = (e.map AssessRec.demand).sum := rfl

theorem liveMetricsOf_netCollections (e : List AssessRec) :
    (liveMetricsOf e).netCollections = (e.map AssessRec.collected).sum := rfl

theorem liveMetricsOf_efficiency (e : List AssessRec) :
    (liveMetricsOf e).efficiency
      = if 0 < (e.map AssessRec.demand).sum
        then (e.map AssessRec.collected).sum / (e.map AssessRec.demand).sum * 100
        else 0 := rfl

theorem mem_zoneMetricsOf {Z : List RawZone} {e : List AssessRec} {z : ZoneMetric}
    (hz : z ∈ zoneMetricsOf Z e) :
    ∃ zr ∈ augmentedZones Z e,
      z = { id := jsTrim (jsToString zr.id),
            name := if jsTruthy zr.name then zr.name else .str "Zone",
            recordCount := (e.filter (fun r => r.zone_id == jsTrim (jsToString zr.id))).length,
            demand := ((e.filter (fun r => r.zone_id == jsTrim (jsToString zr.id))).map
              AssessRec.demand).sum,
            collected := ((e.filter (fun r => r.zone_id == jsTrim (jsToString zr.id))).map
              AssessRec.collected).sum,
            pending := ((e.filter (fun r => r.zone_id == jsTrim (jsToString zr.id))).map
              AssessRec.demand).sum
              - ((e.filter (fun r => r.zone_id == jsTrim (jsToString zr.id))).map
                AssessRec.collected).sum } := by
  rcases List.mem_map.mp hz with ⟨zr, hzr, rfl⟩
  exact ⟨zr, hzr, rfl⟩

/-! ### Name-validity and normalizer lemmas -/

theorem isValidName_str (s : String) : isValidName (.str s)
    = (if (jsTrim s).toList.length ≤ 1 then false
       else if (jsStrToNum (jsTrim s)).isSome && (jsTrim s).toList.length < 10 then false
       else if containsSub (jsTrim s) "[ID:" then false
       else !(noiseWords.contains (jsLower (jsTrim s)))) := rfl

theorem containsSub_jsTrim_idTag {s : String} (h : containsSub s "[ID:" = true) :
    containsSub (jsTrim s) "[ID:" = true := by
  show containsL ("[ID:".toList) (jsTrim s).toList = true
  rw [toList_jsTrim]
  exact trimList_keeps_idTag h

theorem normalizeId_str (s : String) :
    normalizeId (.str s) = some (jsStripWs (jsUpper (jsTrim s))) := rfl

theorem normalized_fixed (x : String) :
    normalizeId (.str (jsStripWs (jsUpper (jsTrim x))))
      = some (jsStripWs (jsUpper (jsTrim x))) := by
  have hnoWs : ∀ c ∈ (jsStripWs (jsUpper (jsTrim x))).toList, wsChar c = false := by
    intro c hc
    have hmem : c ∈ stripWsList (jsUpper (jsTrim x)).toList := hc
    have := List.of_mem_filter hmem
    simpa using this
  have htriml : trimList (jsStripWs (jsUpper (jsTrim x))).toList
      = (jsStripWs (jsUpper (jsTrim x))).toList := trimList_of_noWs hnoWs
  have hmapl : (jsStripWs (jsUpper (jsTrim x))).toList.map upChar
      = (jsStripWs (jsUpper (jsTrim x))).toList := by
    apply map_id_of
    intro c hc
    have hmem : c ∈ stripWsList ((jsTrim x).toList.map upChar) := hc
    have hmap : c ∈ (jsTrim x).toList.map upChar := List.mem_of_mem_filter hmem
    rcases List.mem_map.mp hmap with ⟨c0, _, rfl⟩
    exact upChar_idem c0
  have hfiltl : (jsStripWs (jsUpper (jsTrim x))).toList.filter (fun c => !wsChar c)
      = (jsStripWs (jsUpper (jsTrim x))).toList :=
    List.filter_eq_self.mpr (fun c hc => by rw [hnoWs c hc]; rfl)
  show some (jsStripWs (jsUpper (String.mk
    (trimList (jsStripWs (jsUpper (jsTrim x))).toList))))
      = some (jsStripWs (jsUpper (jsTrim x)))
  rw [htriml, mk_toList]
  show some (jsStripWs (String.mk
    ((jsStripWs (jsUpper (jsTrim x))).toList.map upChar)))
      = some (jsStripWs (jsUpper (jsTrim x)))
  rw [hmapl, mk_toList]
  show some (String.mk
    ((jsStripWs (jsUpper (jsTrim x))).toList.filter (fun c => !wsChar c)))
      = some (jsStripWs (jsUpper (jsTrim x)))
  rw [hfiltl, mk_toList]

/-! ### Zone-aggregation sum lemmas -/

theorem enriched_pending {reg : Registry} : ∀ r ∈ enrichedOf reg,
    r.pending = r.demand - r.collected := by
  intro r hr
  rcases mem_enrichedOf.mp hr with ⟨x, _, rfl⟩
  rfl

theorem zoneMetrics_sum_demand (Z : List RawZone) (e : List AssessRec)
    (hcount : ∀ r ∈ e,
      ((augmentedZones Z e).map (fun z => jsTrim (jsToString z.id))).count r.zone_id = 1) :
    ((zoneMetricsOf Z e).map ZoneMetric.demand).sum = (e.map AssessRec.demand).sum := by
  have key : ((zoneMetricsOf Z e).map ZoneMetric.demand).sum
      = (((augmentedZones Z e).map (fun z => jsTrim (jsToString z.id))).map
          (fun k => ((e.filter (fun r => r.zone_id == k)).map AssessRec.demand).sum)).sum := by
    unfold zoneMetricsOf
    rw [List.map_map, List.map_map]
    exact congrArg List.sum (List.map_congr_left (fun z _ => rfl))
  rw [key]
  exact sum_fibers _ e _ hcount

theorem zoneMetrics_sum_collected (Z : List RawZone) (e : List AssessRec)
    (hcount : ∀ r ∈ e,
      ((augmentedZones Z e).map (fun z => jsTrim (jsToString z.id))).count r.zone_id = 1) :
    ((zoneMetricsOf Z e).map ZoneMetric.collected).sum = (e.map AssessRec.collected).sum := by
  have key : ((zoneMetricsOf Z e).map ZoneMetric.collected).sum
      = (((augmentedZones Z e).map (fun z => jsTrim (jsToString z.id))).map
          (fun k => ((e.filter (fun r => r.zone_id == k)).map AssessRec.collected).sum)).sum := by
    unfold zoneMetricsOf
    rw [List.map_map, List.map_map]
    exact congrArg List.sum (List.map_congr_left (fun z _ => rfl))
  rw [key]
  exact sum_fibers _ e _ hcount

theorem zoneMetrics_sum_pending (Z : List RawZone) (e : List AssessRec)
    (hcount : ∀ r ∈ e,
      ((augmentedZones Z e).map (fun z => jsTrim (jsToString z.id))).count r.zone_id = 1) :
    ((zoneMetricsOf Z e).map ZoneMetric.pending).sum
      = (e.map AssessRec.demand).sum - (e.map AssessRec.collected).sum := by
  have key : ((zoneMetricsOf Z e).map ZoneMetric.pending).sum
      = (((augmentedZones Z e).map (fun z => jsTrim (jsToString z.id))).map
          (fun k => ((e.filter (fun r => r.zone_id == k)).map AssessRec.demand).sum
            - ((e.filter (fun r => r.zone_id == k)).map AssessRec.collected).sum)).sum := by
    unfold zoneMetricsOf
    rw [List.map_map, List.map_map]
    exact congrArg List.sum (List.map_congr_left (fun z _ => rfl))
  rw [key, sum_map_sub, sum_fibers _ e _ hcount, sum_fibers _ e _ hcount]

end DT

/-! ## Claim theorems -/

/-- C3: for every PropertyRecord in the output ledger, for every
ZoneSummary, and for the GlobalMetrics singleton, `pending` equals
`demand - collected` exactly; it is recomputed from the final totals
(never merged additively) and may be negative when collected exceeds
demand, as the concrete collection-only run exhibits. -/
theorem claim_C3 :
    (∀ (A D C : List JsModel.RawRec) (Z : List DT.RawZone) (O : List JsModel.RawRec),
      ∀ r ∈ (DT.processMasterData A D C Z O).enriched,
        r.pending = r.demand - r.collected) ∧
    (∀ (A D C : List JsModel.RawRec) (Z : List DT.RawZone) (O : List JsModel.RawRec),
      ∀ z ∈ (DT.processMasterData A D C Z O).zoneMetrics,
        z.pending = z.demand - z.collected) ∧
    (∀ (A D C : List JsModel.RawRec) (Z : List DT.RawZone) (O : List JsModel.RawRec),
      (DT.processMasterData A D C Z O).liveMetrics.pendingAmount
        = (DT.processMasterData A D C Z O).liveMetrics.totalDemand
          - (DT.processMasterData A D C Z O).liveMetrics.netCollections) ∧
    (∃ r ∈ (DT.processMasterData [] []
        [[("assessment_no", JsModel.JSVal.str "B1"), ("total_tax", JsModel.JSVal.num 400)]]
        [] []).enriched, r.pending < 0) := by
  refine ⟨?_, ?_, ?_, ?_⟩
  · intro A D C Z O r hr
    rw [DT.pmd_enriched] at hr
    rcases DT.mem_enrichedOf.mp hr with ⟨x, _, rfl⟩
    rfl
  · intro A D C Z O z hz
    rw [DT.pmd_zoneMetrics] at hz
    rcases DT.mem_zoneMetricsOf hz with ⟨zr, _, rfl⟩
    rfl
  · intro A D C Z O
    rfl
  · have he : (DT.processMasterData [] []
        [[("assessment_no", JsModel.JSVal.str "B1"), ("total_tax", JsModel.JSVal.num 400)]]
        [] []).enriched =
      [{ assessment_no := "B1", owner_name := "Payer [ID:B1]", guardian_name := "",
         zone_id := "unassigned", demand := 0, collected := 0 + 400,
         pending := 0 - (0 + 400) }] := rfl
    rw [he]
    refine ⟨_, List.mem_singleton_self _, ?_⟩
    norm_num

/-- C3 witness: the first conjunct of `claim_C3` applied at a concrete
single-assessment input, discharging the membership hypothesis. -/
theorem claim_C3_witness :
    ({ assessment_no := "A1", owner_name := "Owner [ID:A1]", guardian_name := "",
       zone_id := "unassigned", demand := 0, collected := 0,
       pending := 0 - 0 } : DT.AssessRec).pending
      = (0 : ℚ) - 0 := by
  have he : (DT.processMasterData [[("assessment_no", JsModel.JSVal.str "A1")]] [] [] []
      []).enriched =
      [{ assessment_no := "A1", owner_name := "Owner [ID:A1]", guardian_name := "",
         zone_id := "unassigned", demand := 0, collected := 0,
         pending := 0 - 0 }] := rfl
  exact claim_C3.1 [[("assessment_no", JsModel.JSVal.str "A1")]] [] [] [] [] _
    (he ▸ List.mem_singleton_self _)

/-- C9: the GlobalMetrics fields are the ledger length, the ledger sums
of demand and collected, their difference, and the efficiency ratio
`netCollections / totalDemand * 100` with 0 exactly when the total
demand is 0 (the total is never negative) and no upper clamp. -/
theorem claim_C9 :
    ∀ (A D C : List JsModel.RawRec) (Z : List DT.RawZone) (O : List JsModel.RawRec),
      (DT.processMasterData A D C Z O).liveMetrics.totalAssessments
        = (DT.processMasterData A D C Z O).enriched.length ∧
      (DT.processMasterData A D C Z O).liveMetrics.totalDemand
        = ((DT.processMasterData A D C Z O).enriched.map DT.AssessRec.demand).sum ∧
      (DT.processMasterData A D C Z O).liveMetrics.netCollections
        = ((DT.processMasterData A D C Z O).enriched.map DT.AssessRec.collected).sum ∧
      (DT.processMasterData A D C Z O).liveMetrics.pendingAmount
        = (DT.processMasterData A D C Z O).liveMetrics.totalDemand
          - (DT.processMasterData A D C Z O).liveMetrics.netCollections ∧
      (DT.processMasterData A D C Z O).liveMetrics.efficiency
        = (if (DT.processMasterData A D C Z O).liveMetrics.totalDemand = 0 then 0
           else (DT.processMasterData A D C Z O).liveMetrics.netCollections
             / (DT.processMasterData A D C Z O).liveMetrics.totalDemand * 100) := by
  intro A D C Z O
  refine ⟨rfl, rfl, rfl, rfl, ?_⟩
  have h0 : 0 ≤ ((DT.processMasterData A D C Z O).enriched.map DT.AssessRec.demand).sum := by
    refine List.sum_nonneg ?_
    intro x hx
    rcases List.mem_map.mp hx with ⟨r, hr, rfl⟩
    rw [DT.pmd_enriched] at hr
    exact (DT.enriched_nonneg _ _ A D C r hr).1
  rw [DT.pmd_liveMetrics, DT.liveMetricsOf_efficiency, DT.liveMetricsOf_totalDemand,
    DT.liveMetricsOf_netCollections]
  rcases eq_or_lt_of_le h0 with h | h
  · have hnot : ¬ (0 < ((DT.processMasterData A D C Z O).enriched.map
        DT.AssessRec.demand).sum) := by
      rw [← h]
      exact lt_irrefl 0
    simp [hnot, ← h]
  · simp [h, h.ne']

/-- C6: every demand (resp. collection) contribution is
`max(0, numeric total_demand / total_tax)` added to the entry's demand
(resp. collected); missing or unparseable values coerce to 0, a negative
value (-100) contributes 0 rather than subtracting, and accumulated
demand and collected are non-negative on every ledger entry. The
embedding is total, so no malformed monetary field can raise. -/
theorem claim_C6 :
    (∀ (d : JsModel.RawRec) (f : String), 0 ≤ DT.amountOf d f) ∧
    (DT.amountOf [("assessment_no", JsModel.JSVal.str "X1"),
       ("total_demand", JsModel.JSVal.num (-100))] "total_demand" = 0) ∧
    (∀ (nm gm : DT.SMap) (reg : DT.Registry) (d : JsModel.RawRec)
       (i : String) (r : DT.AssessRec),
      DT.truthy? (DT.resolveId d) = some i → DT.mapGet reg i = some r →
      DT.mapGet (DT.demandStep nm gm reg d) i
        = some { r with demand := r.demand + DT.amountOf d "total_demand" }) ∧
    (∀ (nm gm : DT.SMap) (reg : DT.Registry) (c : JsModel.RawRec)
       (i : String) (r : DT.AssessRec),
      DT.truthy? (DT.resolveId c) = some i → DT.mapGet reg i = some r →
      DT.mapGet (DT.collectStep nm gm reg c) i
        = some { r with collected := r.collected + DT.amountOf c "total_tax" }) ∧
    (∀ (A D C : List JsModel.RawRec) (Z : List DT.RawZone) (O : List JsModel.RawRec),
      ∀ r ∈ (DT.processMasterData A D C Z O).enriched,
        0 ≤ r.demand ∧ 0 ≤ r.collected) := by
  refine ⟨fun d f => DT.amountOf_nonneg d f, by decide, ?_, ?_, ?_⟩
  · intro nm gm reg d i r h hg
    rw [DT.demandStep_some_mem h hg, DT.mapGet_set_self]
  · intro nm gm reg c i r h hg
    rw [DT.collectStep_some_mem h hg, DT.mapGet_set_self]
  · intro A D C Z O r hr
    rw [DT.pmd_enriched] at hr
    exact DT.enriched_nonneg _ _ A D C r hr

/-- C6 witness: the demand-accumulation conjunct of `claim_C6` applied at
a concrete registry and demand row, discharging both hypotheses. -/
theorem claim_C6_witness :
    DT.mapGet (DT.demandStep [] []
      [("X1", { assessment_no := "X1", owner_name := "Bob", guardian_name := "",
                zone_id := "Z1", demand := 0, collected := 0, pending := 0 })]
      [("assessment_no", JsModel.JSVal.str "X1"),
       ("total_demand", JsModel.JSVal.num (-100))]) "X1"
    = some { assessment_no := "X1", owner_name := "Bob", guardian_name := "",
             zone_id := "Z1",
             demand := (0 : ℚ) + DT.amountOf
               [("assessment_no", JsModel.JSVal.str "X1"),
                ("total_demand", JsModel.JSVal.num (-100))] "total_demand",
             collected := 0, pending := 0 } :=
  claim_C6.2.2.1 [] []
    [("X1", { assessment_no := "X1", owner_name := "Bob", guardian_name := "",
              zone_id := "Z1", demand := 0, collected := 0, pending := 0 })]
    [("assessment_no", JsModel.JSVal.str "X1"),
     ("total_demand", JsModel.JSVal.num (-100))]
    "X1"
    { assessment_no := "X1", owner_name := "Bob", guardian_name := "",
      zone_id := "Z1", demand := 0, collected := 0, pending := 0 }
    (by decide) (by decide)

/-- C7: the validity predicate rejects null/undefined, strings whose
trimmed length is at most 1, strings whose trimmed lowercase form is a
noise word, strings under 10 characters that parse fully as a number,
and strings containing the substring "[ID:"; in particular "N/A", "0",
"-", "" and "unknown" are all rejected. -/
theorem claim_C7 :
    DT.isValidName JsModel.JSVal.nullV = false ∧
    DT.isValidName JsModel.JSVal.undefV = false ∧
    (∀ s : String, (JsModel.jsTrim s).toList.length ≤ 1 →
      DT.isValidName (.str s) = false) ∧
    (∀ s : String,
      DT.noiseWords.contains (JsModel.jsLower (JsModel.jsTrim s)) = true →
      DT.isValidName (.str s) = false) ∧
    (∀ s : String, JsModel.jsStrToNum s ≠ none → s.toList.length < 10 →
      DT.isValidName (.str s) = false) ∧
    (∀ s : String, JsModel.containsSub s "[ID:" = true →
      DT.isValidName (.str s) = false) ∧
    DT.isValidName (.str "N/A") = false ∧
    DT.isValidName (.str "0") = false ∧
    DT.isValidName (.str "-") = false ∧
    DT.isValidName (.str "") = false ∧
    DT.isValidName (.str "unknown") = false := by
  refine ⟨rfl, rfl, ?_, ?_, ?_, ?_, by decide, by decide, by decide, by decide, by decide⟩
  · intro s h1
    rw [DT.isValidName_str, if_pos h1]
  · intro s h4
    rw [DT.isValidName_str]
    simp
    intro _ _ _
    simpa using h4
  · intro s hp hl
    have hsome : (JsModel.jsStrToNum (JsModel.jsTrim s)).isSome = true := by
      rw [JsModel.jsStrToNum_jsTrim]
      exact Option.isSome_iff_ne_none.mpr hp
    have hlen : (JsModel.jsTrim s).toList.length < 10 := by
      rw [JsModel.toList_jsTrim]
      exact lt_of_le_of_lt (JsModel.length_trimList_le _) hl
    have hlen' : (JsModel.jsTrim s).length < 10 := hlen
    rw [DT.isValidName_str]
    simp [hsome, hlen']
  · intro s h6
    have hc3 := DT.containsSub_jsTrim_idTag h6
    rw [DT.isValidName_str]
    simp [hc3]

/-- C7 witness: the numeric-reject and placeholder-reject conjuncts of
`claim_C7` applied at the concrete strings "12345" and "ab [ID:9]". -/
theorem claim_C7_witness :
    DT.isValidName (.str "12345") = false ∧ DT.isValidName (.str "ab [ID:9]") = false :=
  ⟨claim_C7.2.2.2.2.1 "12345" (by decide) (by decide),
   claim_C7.2.2.2.2.2.1 "ab [ID:9]" (by decide)⟩

/-- C8: the identifier normalizer returns null exactly on null/undefined,
otherwise stringifies, trims, uppercases and strips internal whitespace;
it is idempotent (normalizing an already-normalized value returns it
unchanged) and case/whitespace-insensitive on the spec's example. -/
theorem claim_C8 :
    (∀ v : JsModel.JSVal, DT.normalizeId v = none ↔
      v = JsModel.JSVal.nullV ∨ v = JsModel.JSVal.undefV) ∧
    (∀ s : String, DT.normalizeId (JsModel.JSVal.str s)
      = some (JsModel.jsStripWs (JsModel.jsUpper (JsModel.jsTrim s)))) ∧
    (∀ (v : JsModel.JSVal) (t : String), DT.normalizeId v = some t →
      DT.normalizeId (JsModel.JSVal.str t) = some t) ∧
    DT.normalizeId (JsModel.JSVal.str "  a1 ") = some "A1" ∧
    DT.normalizeId (JsModel.JSVal.str "A1") = some "A1" := by
  refine ⟨?_, fun s => DT.normalizeId_str s, ?_, by decide, by decide⟩
  · intro v
    cases v <;> simp [DT.normalizeId]
  · intro v t h
    cases v with
    | nullV => simp [DT.normalizeId] at h
    | undefV => simp [DT.normalizeId] at h
    | str s =>
      rw [DT.normalizeId_str] at h
      have ht := Option.some.inj h
      rw [← ht]
      exact DT.normalized_fixed s
    | num q =>
      have hq : DT.normalizeId (JsModel.JSVal.num q)
          = some (JsModel.jsStripWs (JsModel.jsUpper
            (JsModel.jsTrim (JsModel.ratToJsStr q)))) := rfl
      rw [hq] at h
      have ht := Option.some.inj h
      rw [← ht]
      exact DT.normalized_fixed (JsModel.ratToJsStr q)

/-- C8 witness: idempotence of `claim_C8` applied to the normalized form
of "  a1 ", its hypothesis discharged by the theorem's own concrete
conjunct. -/
theorem claim_C8_witness : DT.normalizeId (JsModel.JSVal.str "A1") = some "A1" :=
  claim_C8.2.2.1 (JsModel.JSVal.str "  a1 ") "A1" claim_C8.2.2.2.1

/-- C4: pass-1 name precedence — an assessment row overwrites a stored
name only when its resolved name is strictly longer (equal or shorter is
retained), a guardian from an assessment row only fills a gap, and the
owner registry is consulted first, as the concrete `pass1` runs (with the
spec's "A"/"Alexander" pair and with valid names of each relative length)
exhibit. -/
theorem claim_C4 :
    (∀ (nm gm : DT.SMap) (a : JsModel.RawRec) (i n : String),
      DT.truthy? (DT.resolveId a) = some i →
      DT.truthy? (DT.resolveName a) = some n →
      DT.mapGet (DT.assessStep nm gm a).1 i
        = some (match DT.mapGet nm i with
                | none => n
                | some s => if s.length < n.length then n else s)) ∧
    (∀ (nm gm : DT.SMap) (a : JsModel.RawRec) (i g : String),
      DT.truthy? (DT.resolveId a) = some i →
      DT.truthy? (DT.resolveGuardianName a) = some g →
      DT.mapGet (DT.assessStep nm gm a).2 i = some ((DT.mapGet gm i).getD g)) ∧
    (DT.mapGet (DT.pass1
        [[("assessment_no", JsModel.JSVal.str "I1"), ("owner_name", JsModel.JSVal.str "A")]]
        [[("assessment_no", JsModel.JSVal.str "I1"),
          ("owner_name", JsModel.JSVal.str "Alexander")]]).1 "I1" = some "Alexander") ∧
    (DT.mapGet (DT.pass1
        [[("assessment_no", JsModel.JSVal.str "I1"),
          ("owner_name", JsModel.JSVal.str "Alexander")]]
        [[("assessment_no", JsModel.JSVal.str "I1"),
          ("owner_name", JsModel.JSVal.str "A")]]).1 "I1" = some "Alexander") ∧
    (DT.mapGet (DT.pass1
        [[("assessment_no", JsModel.JSVal.str "I1"), ("owner_name", JsModel.JSVal.str "Bob")]]
        [[("assessment_no", JsModel.JSVal.str "I1"),
          ("owner_name", JsModel.JSVal.str "Alexander")]]).1 "I1" = some "Alexander") ∧
    (DT.mapGet (DT.pass1
        [[("assessment_no", JsModel.JSVal.str "I1"),
          ("owner_name", JsModel.JSVal.str "Alexander")]]
        [[("assessment_no", JsModel.JSVal.str "I1"),
          ("owner_name", JsModel.JSVal.str "Bob")]]).1 "I1" = some "Alexander") ∧
    (DT.mapGet (DT.pass1
        [[("assessment_no", JsModel.JSVal.str "I1"), ("owner_name", JsModel.JSVal.str "Bob")]]
        [[("assessment_no", JsModel.JSVal.str "I1"),
          ("owner_name", JsModel.JSVal.str "Max")]]).1 "I1" = some "Bob") ∧
    (DT.mapGet (DT.pass1
        [[("assessment_no", JsModel.JSVal.str "I1"),
          ("guardian_name", JsModel.JSVal.str "First Guardian")]]
        [[("assessment_no", JsModel.JSVal.str "I1"),
          ("guardian_name", JsModel.JSVal.str "Second Guardian Longer")]]).2 "I1"
      = some "First Guardian") := by
  refine ⟨?_, ?_, by decide, by decide, by decide, by decide, by decide, by decide⟩
  · intro nm gm a i n hid hn
    have he : (DT.assessStep nm gm a).1
        = match DT.mapGet nm i with
          | none => DT.mapSet nm i n
          | some s => if s.length < n.length then DT.mapSet nm i n else nm := by
      simp [DT.assessStep, hid, hn]
    rw [he]
    cases hg : DT.mapGet nm i with
    | none => simp [DT.mapGet_set_self]
    | some s =>
      by_cases hlt : s.length < n.length
      · simp [hlt, DT.mapGet_set_self]
      · simp [hlt, hg]
  · intro nm gm a i g hid hgu
    have he : (DT.assessStep nm gm a).2
        = match DT.mapGet gm i with
          | none => DT.mapSet gm i g
          | some _ => gm := by
      simp [DT.assessStep, hid, hgu]
    rw [he]
    cases hg : DT.mapGet gm i with
    | none => simp [DT.mapGet_set_self]
    | some g0 => simp [hg]

/-- C4 witness: the name-precedence conjunct of `claim_C4` applied at a
concrete stored map and assessment row ("Bob" stored, "Alexander"
resolved — the strictly longer name overwrites). -/
theorem claim_C4_witness :
    DT.mapGet (DT.assessStep [("I1", "Bob")] []
      [("assessment_no", JsModel.JSVal.str "I1"),
       ("owner_name", JsModel.JSVal.str "Alexander")]).1 "I1" = some "Alexander" :=
  (claim_C4.1 [("I1", "Bob")] []
    [("assessment_no", JsModel.JSVal.str "I1"),
     ("owner_name", JsModel.JSVal.str "Alexander")] "I1" "Alexander"
    (by decide) (by decide)).trans (by decide)

/-- C5: a demand row whose resolved id has no ledger entry creates an
orphan entry with zone "unassigned", owner name from the pass-1 map,
else a fresh scan of the row, else "External [ID:<id>]", accumulating
into demand; a collection row behaves identically with "Payer [ID:<id>]"
and accumulates into collected; a pipeline run on a lone demand row
yields the "unassigned" zone. -/
theorem claim_C5 :
    (∀ (nm gm : DT.SMap) (reg : DT.Registry) (d : JsModel.RawRec) (i : String),
      DT.truthy? (DT.resolveId d) = some i → DT.mapGet reg i = none →
      DT.mapGet (DT.demandStep nm gm reg d) i = some
        { assessment_no := i,
          owner_name := DT.strOr (DT.mapGet nm i)
            (DT.strOr (DT.resolveName d) ("External [ID:" ++ i ++ "]")),
          guardian_name := DT.strOr (DT.mapGet gm i)
            (DT.strOr (DT.resolveGuardianName d) ""),
          zone_id := "unassigned", demand := 0 + DT.amountOf d "total_demand",
          collected := 0, pending := 0 }) ∧
    (∀ (nm gm : DT.SMap) (reg : DT.Registry) (c : JsModel.RawRec) (i : String),
      DT.truthy? (DT.resolveId c) = some i → DT.mapGet reg i = none →
      DT.mapGet (DT.collectStep nm gm reg c) i = some
        { assessment_no := i,
          owner_name := DT.strOr (DT.mapGet nm i)
            (DT.strOr (DT.resolveName c) ("Payer [ID:" ++ i ++ "]")),
          guardian_name := DT.strOr (DT.mapGet gm i)
            (DT.strOr (DT.resolveGuardianName c) ""),
          zone_id := "unassigned", demand := 0,
          collected := 0 + DT.amountOf c "total_tax", pending := 0 }) ∧
    ((DT.processMasterData [] [[("assessment_no", JsModel.JSVal.str "D1")]] [] []
        []).enriched.map DT.AssessRec.zone_id = ["unassigned"]) := by
  refine ⟨?_, ?_, by decide⟩
  · intro nm gm reg d i h hg
    rw [DT.demandStep_some_new h hg, DT.mapGet_set_self]
  · intro nm gm reg c i h hg
    rw [DT.collectStep_some_new h hg, DT.mapGet_set_self]

/-- C5 witness: the demand-orphan conjunct of `claim_C5` applied at an
empty registry and a concrete demand row with no resolvable name. -/
theorem claim_C5_witness :
    DT.mapGet (DT.demandStep [] [] []
      [("assessment_no", JsModel.JSVal.str "D1")]) "D1" = some
      { assessment_no := "D1",
        owner_name := DT.strOr (DT.mapGet [] "D1")
          (DT.strOr (DT.resolveName [("assessment_no", JsModel.JSVal.str "D1")])
            ("External [ID:" ++ "D1" ++ "]")),
        guardian_name := DT.strOr (DT.mapGet [] "D1")
          (DT.strOr (DT.resolveGuardianName
            [("assessment_no", JsModel.JSVal.str "D1")]) ""),
        zone_id := "unassigned",
        demand := 0 + DT.amountOf [("assessment_no", JsModel.JSVal.str "D1")] "total_demand",
        collected := 0, pending := 0 } :=
  claim_C5.1 [] [] [] [("assessment_no", JsModel.JSVal.str "D1")] "D1" (by decide) rfl

/-- C10: zone matching is trim-only and case-sensitive — a seeded ledger
entry's zoneId is the row's cluster_id stringified and trimmed (never
uppercased or whitespace-stripped); two assessment rows whose cluster ids
differ only in case land in different zone buckets; and a record whose
zoneId matches no (augmented) master-zone id case-exactly appears in no
ZoneSummary (no summary carries its zoneId). -/
theorem claim_C10 :
    (∀ (nm gm : DT.SMap) (reg : DT.Registry) (a : JsModel.RawRec) (i : String),
      DT.truthy? (DT.resolveId a) = some i →
      JsModel.jsTruthy (JsModel.getF a "cluster_id") = true →
      (DT.mapGet (DT.seedStep nm gm reg a) i).map DT.AssessRec.zone_id
        = some (JsModel.jsTrim (JsModel.jsToString (JsModel.getF a "cluster_id")))) ∧
    (∀ (A D C : List JsModel.RawRec) (Z : List DT.RawZone) (O : List JsModel.RawRec),
      ∀ r ∈ (DT.processMasterData A D C Z O).enriched,
        r.zone_id ∉ ((DT.augmentedZones Z (DT.processMasterData A D C Z O).enriched).map
          (fun z => JsModel.jsTrim (JsModel.jsToString z.id))) →
        ∀ z ∈ (DT.processMasterData A D C Z O).zoneMetrics, z.id ≠ r.zone_id) ∧
    ((DT.processMasterData
        [[("assessment_no", JsModel.JSVal.str "A1"), ("cluster_id", JsModel.JSVal.str "z1")],
         [("assessment_no", JsModel.JSVal.str "A2"), ("cluster_id", JsModel.JSVal.str "Z1")]]
        [] [] [⟨JsModel.JSVal.str "z1", JsModel.JSVal.str "Lower Zone"⟩,
               ⟨JsModel.JSVal.str "Z1", JsModel.JSVal.str "Upper Zone"⟩]
        []).zoneMetrics.map (fun z => (z.id, z.recordCount)) = [("z1", 1), ("Z1", 1)]) ∧
    ((DT.processMasterData
        [[("assessment_no", JsModel.JSVal.str "A1"), ("cluster_id", JsModel.JSVal.str "Z9")]]
        [] [] [⟨JsModel.JSVal.str "Z1", JsModel.JSVal.str "Zone One"⟩]
        []).zoneMetrics.map (fun z => (z.id, z.recordCount)) = [("Z1", 0)] ∧
      (DT.processMasterData
        [[("assessment_no", JsModel.JSVal.str "A1"), ("cluster_id", JsModel.JSVal.str "Z9")]]
        [] [] [⟨JsModel.JSVal.str "Z1", JsModel.JSVal.str "Zone One"⟩]
        []).enriched.map DT.AssessRec.zone_id = ["Z9"]) := by
  refine ⟨?_, ?_, by decide, by decide, by decide⟩
  · intro nm gm reg a i h hc
    rw [DT.seedStep_some h, DT.mapGet_set_self]
    simp [hc]
  · intro A D C Z O r hr hnot z hz heq
    rw [DT.pmd_zoneMetrics] at hz
    rcases DT.mem_zoneMetricsOf hz with ⟨zr, hzr, rfl⟩
    exact hnot (heq ▸ List.mem_map_of_mem _ hzr)

/-- C10 witness: the trim-only conjunct of `claim_C10` applied at a
concrete assessment row whose cluster id has padding and lower case —
the zone id is trimmed but not uppercased. -/
theorem claim_C10_witness :
    (DT.mapGet (DT.seedStep [] [] []
      [("assessment_no", JsModel.JSVal.str "A1"),
       ("cluster_id", JsModel.JSVal.str " z5 ")]) "A1").map DT.AssessRec.zone_id
      = some "z5" :=
  (claim_C10.1 [] [] []
    [("assessment_no", JsModel.JSVal.str "A1"),
     ("cluster_id", JsModel.JSVal.str " z5 ")] "A1"
    (by decide) (by decide)).trans (by decide)

/-- C1 (amended): when every ledger record's zoneId occurs exactly once
among the trimmed ids of the augmented zone list (master list plus the
synthetic "unassigned" zone), the sum of demand (resp. collected,
pending) over all ZoneSummaries equals the corresponding GlobalMetrics
total, which in turn equals the sum of that field over all
PropertyRecords. Without that condition records in no zone are dropped
from the zone sums (see the counterexample). -/
theorem claim_C1 :
    ∀ (A D C : List JsModel.RawRec) (Z : List DT.RawZone) (O : List JsModel.RawRec),
      (∀ r ∈ (DT.processMasterData A D C Z O).enriched,
        ((DT.augmentedZones Z (DT.processMasterData A D C Z O).enriched).map
          (fun z => JsModel.jsTrim (JsModel.jsToString z.id))).count r.zone_id = 1) →
      (((DT.processMasterData A D C Z O).zoneMetrics.map DT.ZoneMetric.demand).sum
          = (DT.processMasterData A D C Z O).liveMetrics.totalDemand ∧
        ((DT.processMasterData A D C Z O).zoneMetrics.map DT.ZoneMetric.collected).sum
          = (DT.processMasterData A D C Z O).liveMetrics.netCollections ∧
        ((DT.processMasterData A D C Z O).zoneMetrics.map DT.ZoneMetric.pending).sum
          = (DT.processMasterData A D C Z O).liveMetrics.pendingAmount ∧
        (DT.processMasterData A D C Z O).liveMetrics.totalDemand
          = ((DT.processMasterData A D C Z O).enriched.map DT.AssessRec.demand).sum ∧
        (DT.processMasterData A D C Z O).liveMetrics.netCollections
          = ((DT.processMasterData A D C Z O).enriched.map DT.AssessRec.collected).sum ∧
        (DT.processMasterData A D C Z O).liveMetrics.pendingAmount
          = ((DT.processMasterData A D C Z O).enriched.map DT.AssessRec.pending).sum) := by
  intro A D C Z O hcount
  have hzm : (DT.processMasterData A D C Z O).zoneMetrics
      = DT.zoneMetricsOf Z (DT.processMasterData A D C Z O).enriched :=
    DT.pmd_zoneMetrics A D C Z O
  have hpend : (DT.processMasterData A D C Z O).enriched.map DT.AssessRec.pending
      = (DT.processMasterData A D C Z O).enriched.map
          (fun r => r.demand - r.collected) := by
    refine List.map_congr_left ?_
    intro r hr
    rw [DT.pmd_enriched] at hr
    exact DT.enriched_pending r hr
  refine ⟨?_, ?_, ?_, rfl, rfl, ?_⟩
  · rw [hzm]
    exact DT.zoneMetrics_sum_demand Z _ hcount
  · rw [hzm]
    exact DT.zoneMetrics_sum_collected Z _ hcount
  · rw [hzm]
    exact DT.zoneMetrics_sum_pending Z _ hcount
  · rw [hpend, DT.sum_map_sub]
    rfl

/-- C1 counterexample: with one assessment in zone "Z9", one demand of
100 against it, and an empty master zone list, the zone summaries sum to
0 while the GlobalMetrics total demand is 100 — the record is silently
dropped from the zone sums, so the partition property fails as stated
for arbitrary inputs. -/
theorem claim_C1_cex :
    ¬ (((DT.processMasterData
        [[("assessment_no", JsModel.JSVal.str "A1"), ("cluster_id", JsModel.JSVal.str "Z9")]]
        [[("assessment_no", JsModel.JSVal.str "A1"), ("total_demand", JsModel.JSVal.num 100)]]
        [] [] []).zoneMetrics.map DT.ZoneMetric.demand).sum
      = (DT.processMasterData
        [[("assessment_no", JsModel.JSVal.str "A1"), ("cluster_id", JsModel.JSVal.str "Z9")]]
        [[("assessment_no", JsModel.JSVal.str "A1"), ("total_demand", JsModel.JSVal.num 100)]]
        [] [] []).liveMetrics.totalDemand) := by
  have h1 : (DT.processMasterData
      [[("assessment_no", JsModel.JSVal.str "A1"), ("cluster_id", JsModel.JSVal.str "Z9")]]
      [[("assessment_no", JsModel.JSVal.str "A1"), ("total_demand", JsModel.JSVal.num 100)]]
      [] [] []).zoneMetrics = [] := by decide
  have h2 : (DT.processMasterData
      [[("assessment_no", JsModel.JSVal.str "A1"), ("cluster_id", JsModel.JSVal.str "Z9")]]
      [[("assessment_no", JsModel.JSVal.str "A1"), ("total_demand", JsModel.JSVal.num 100)]]
      [] [] []).liveMetrics.totalDemand
      = (0 + max 0 ((JsModel.jsNumber (JsModel.JSVal.num 100)).getD 0)) + 0 := rfl
  rw [h1, h2]
  norm_num [JsModel.jsNumber]

/-- C1 witness: the amended theorem applied at a concrete input (one
master zone, empty record sets), its exactly-once hypothesis discharged
vacuously since the ledger is empty. -/
theorem claim_C1_witness :
    ((DT.processMasterData [] [] []
        [⟨JsModel.JSVal.str "Z1", JsModel.JSVal.str "Zone One"⟩] []).zoneMetrics.map
      DT.ZoneMetric.demand).sum
    = (DT.processMasterData [] [] []
        [⟨JsModel.JSVal.str "Z1", JsModel.JSVal.str "Zone One"⟩] []).liveMetrics.totalDemand :=
  (claim_C1 [] [] [] [⟨JsModel.JSVal.str "Z1", JsModel.JSVal.str "Zone One"⟩] []
    (by intro r hr; simp [show (DT.processMasterData [] [] []
      [⟨JsModel.JSVal.str "Z1", JsModel.JSVal.str "Zone One"⟩] []).enriched = []
      from rfl] at hr)).1

namespace TF

open JsModel DT

/-! ### transformers.ts pass-1 and pass-2 lemmas -/

theorem fillStep_preserves {nm : SMap} {i v : String} (r : RawRec)
    (h : mapGet nm i = some v) : mapGet (fillStep nm r) i = some v := by
  cases h1 : truthy? (resolveId r) with
  | none => simpa [fillStep, h1] using h
  | some j =>
    cases h2 : truthy? (resolveName r) with
    | none => simpa [fillStep, h1, h2] using h
    | some n =>
      cases hg : mapGet nm j with
      | none =>
        have hne : i ≠ j := by
          intro he
          rw [he, hg] at h
          exact Option.noConfusion h
        rw [show fillStep nm r = mapSet nm j n from by simp [fillStep, h1, h2, hg]]
        rw [mapGet_set_ne nm n hne]
        exact h
      | some _ => simpa [fillStep, h1, h2, hg] using h

theorem fillFold_get {i : String} : ∀ (rows : List RawRec) (nm : SMap),
    mapGet nm i = none →
    mapGet (rows.foldl fillStep nm) i = firstFill rows i := by
  intro rows
  induction rows with
  | nil =>
    intro nm h
    simpa [firstFill] using h
  | cons r t ih =>
    intro nm h
    rw [List.foldl_cons]
    cases h1 : truthy? (resolveId r) with
    | none =>
      rw [show fillStep nm r = nm by simp [fillStep, h1]]
      rw [ih nm h]
      simp [firstFill, h1]
    | some j =>
      cases h2 : truthy? (resolveName r) with
      | none =>
        rw [show fillStep nm r = nm by simp [fillStep, h1, h2]]
        rw [ih nm h]
        simp [firstFill, h1, h2]
      | some n =>
        by_cases hji : j = i
        · subst hji
          rw [show fillStep nm r = mapSet nm j n by simp [fillStep, h1, h2, h]]
          have hpres : mapGet (t.foldl fillStep (mapSet nm j n)) j = some n :=
            @foldl_inv SMap RawRec (fun m => mapGet m j = some n) fillStep
              (fun s a hs => fillStep_preserves a hs) t (mapSet nm j n)
              (mapGet_set_self nm j n)
          rw [hpres]
          simp [firstFill, h1, h2]
        · have hstep : mapGet (fillStep nm r) i = none := by
            unfold fillStep
            rw [h1, h2]
            cases hg : mapGet nm j with
            | none =>
              simp only [hg]
              rw [mapGet_set_ne nm n (fun he => hji he.symm)]
              exact h
            | some _ => simpa [hg] using h
          rw [ih _ hstep]
          simp [firstFill, h1, h2, hji]
        

theorem firstFill_ne_empty {i n : String} : ∀ {rows : List RawRec},
    firstFill rows i = some n → n ≠ "" := by
  intro rows
  induction rows with
  | nil => intro h; simp [firstFill] at h
  | cons r t ih =>
    intro h
    cases h1 : truthy? (resolveId r) with
    | none =>
      rw [show firstFill (r :: t) i = firstFill t i from by simp [firstFill, h1]] at h
      exact ih h
    | some j =>
      cases h2 : truthy? (resolveName r) with
      | none =>
        rw [show firstFill (r :: t) i = firstFill t i from by
          simp [firstFill, h1, h2]] at h
        exact ih h
      | some m =>
        rw [show firstFill (r :: t) i = (if j = i then some m else firstFill t i) from by
          simp [firstFill, h1, h2]] at h
        by_cases hji : j = i
        · rw [if_pos hji] at h
          have hm := Option.some.inj h
          rw [← hm]
          exact truthy?_ne_empty h2
        · rw [if_neg hji] at h
          exact ih h

theorem seedStepT_none {nm : SMap} {reg : Registry} {a : RawRec}
    (h : truthy? (resolveId a) = none) : seedStepT nm reg a = reg := by
  simp [seedStepT, h]

theorem seedStepT_some {nm : SMap} {reg : Registry} {a : RawRec} {id : String}
    (h : truthy? (resolveId a) = some id) :
    seedStepT nm reg a = mapSet reg id
      { assessment_no := id,
        owner_name := strOr (mapGet nm id) ("Owner [ID:" ++ id ++ "]"),
        guardian_name := "",
        zone_id := if jsTruthy (getF a "cluster_id")
          then jsTrim (jsToString (getF a "cluster_id")) else "unassigned",
        demand := 0, collected := 0, pending := 0 } := by
  simp [seedStepT, h]

theorem demandStepT_none {nm : SMap} {reg : Registry} {d : RawRec}
    (h : truthy? (resolveId d) = none) : demandStepT nm reg d = reg := by
  simp [demandStepT, h]

theorem demandStepT_some_mem {nm : SMap} {reg : Registry} {d : RawRec}
    {id : String} {r : AssessRec} (h : truthy? (resolveId d) = some id)
    (hg : mapGet reg id = some r) :
    demandStepT nm reg d =
      mapSet reg id { r with demand := r.demand + amountOf d "total_demand" } := by
  simp [demandStepT, h, hg]

theorem demandStepT_some_new {nm : SMap} {reg : Registry} {d : RawRec}
    {id : String} (h : truthy? (resolveId d) = some id)
    (hg : mapGet reg id = none) :
    demandStepT nm reg d = mapSet reg id
      { assessment_no := id,
        owner_name := strOr (mapGet nm id)
          (strOr (resolveName d) ("External [ID:" ++ id ++ "]")),
        guardian_name := "",
        zone_id := "unassigned", demand := 0 + amountOf d "total_demand",
        collected := 0, pending := 0 } := by
  simp [demandStepT, h, hg]

theorem collectStepT_none {nm : SMap} {reg : Registry} {c : RawRec}
    (h : truthy? (resolveId c) = none) : collectStepT nm reg c = reg := by
  simp [collectStepT, h]

theorem collectStepT_some_mem {nm : SMap} {reg : Registry} {c : RawRec}
    {id : String} {r : AssessRec} (h : truthy? (resolveId c) = some id)
    (hg : mapGet reg id = some r) :
    collectStepT nm reg c =
      mapSet reg id { r with collected := r.collected + amountOf c "total_tax" } := by
  simp [collectStepT, h, hg]

theorem collectStepT_some_new {nm : SMap} {reg : Registry} {c : RawRec}
    {id : String} (h : truthy? (resolveId c) = some id)
    (hg : mapGet reg id = none) :
    collectStepT nm reg c = mapSet reg id
      { assessment_no := id,
        owner_name := strOr (mapGet nm id)
          (strOr (resolveName c) ("Payer [ID:" ++ id ++ "]")),
        guardian_name := "",
        zone_id := "unassigned", demand := 0,
        collected := 0 + amountOf c "total_tax", pending := 0 } := by
  simp [collectStepT, h, hg]

theorem tf_pmd_enriched (A D C : List RawRec) (Z : List RawZone) (O : List RawRec) :
    (TF.processMasterData A D C Z O).enriched
      = enrichedOf (buildRegistryT (tfNameMap O A D C) A D C) := rfl

theorem tf_pmd_nameMap (A D C : List RawRec) (Z : List RawZone) (O : List RawRec) :
    (TF.processMasterData A D C Z O).nameMap = tfNameMap O A D C := rfl

/-- The invariant threaded through the transformers.ts pass-2 folds: all
entries sit under their own id, and the entry for the distinguished id
`i` carries the pass-1 name `n`. -/
theorem tf_inv_seed {nm : SMap} {i n : String}
    (hnm : mapGet nm i = some n) (hn : n ≠ "") (a : RawRec) {reg : Registry}
    (hreg : ∀ kv ∈ reg, kv.2.assessment_no = kv.1 ∧ (kv.1 = i → kv.2.owner_name = n)) :
    ∀ kv ∈ seedStepT nm reg a,
      kv.2.assessment_no = kv.1 ∧ (kv.1 = i → kv.2.owner_name = n) := by
  cases h : truthy? (resolveId a) with
  | none =>
    rw [seedStepT_none h]
    exact hreg
  | some id =>
    rw [seedStepT_some h]
    intro kv hkv
    rcases mem_mapSet hkv with rfl | hkv'
    · refine ⟨rfl, ?_⟩
      intro hid
      have hid' : id = i := hid
      show strOr (mapGet nm id) ("Owner [ID:" ++ id ++ "]") = n
      rw [hid', hnm]
      exact strOr_of_ne_empty hn _
    · exact hreg kv hkv'

theorem tf_inv_demand {nm : SMap} {i n : String}
    (hnm : mapGet nm i = some n) (hn : n ≠ "") (d : RawRec) {reg : Registry}
    (hreg : ∀ kv ∈ reg, kv.2.assessment_no = kv.1 ∧ (kv.1 = i → kv.2.owner_name = n)) :
    ∀ kv ∈ demandStepT nm reg d,
      kv.2.assessment_no = kv.1 ∧ (kv.1 = i → kv.2.owner_name = n) := by
  cases h : truthy? (resolveId d) with
  | none =>
    rw [demandStepT_none h]
    exact hreg
  | some id =>
    cases hg : mapGet reg id with
    | some r =>
      rw [demandStepT_some_mem h hg]
      intro kv hkv
      rcases mem_mapSet hkv with rfl | hkv'
      · have hr := hreg (id, r) (mapGet_mem hg)
        exact ⟨hr.1, hr.2⟩
      · exact hreg kv hkv'
    | none =>
      rw [demandStepT_some_new h hg]
      intro kv hkv
      rcases mem_mapSet hkv with rfl | hkv'
      · refine ⟨rfl, ?_⟩
        intro hid
        have hid' : id = i := hid
        show strOr (mapGet nm id)
          (strOr (resolveName d) ("External [ID:" ++ id ++ "]")) = n
        rw [hid', hnm]
        exact strOr_of_ne_empty hn _
      · exact hreg kv hkv'

theorem tf_inv_collect {nm : SMap} {i n : String}
    (hnm : mapGet nm i = some n) (hn : n ≠ "") (c : RawRec) {reg : Registry}
    (hreg : ∀ kv ∈ reg, kv.2.assessment_no = kv.1 ∧ (kv.1 = i → kv.2.owner_name = n)) :
    ∀ kv ∈ collectStepT nm reg c,
      kv.2.assessment_no = kv.1 ∧ (kv.1 = i → kv.2.owner_name = n) := by
  cases h : truthy? (resolveId c) with
  | none =>
    rw [collectStepT_none h]
    exact hreg
  | some id =>
    cases hg : mapGet reg id with
    | some r =>
      rw [collectStepT_some_mem h hg]
      intro kv hkv
      rcases mem_mapSet hkv with rfl | hkv'
      · have hr := hreg (id, r) (mapGet_mem hg)
        exact ⟨hr.1, hr.2⟩
      · exact hreg kv hkv'
    | none =>
      rw [collectStepT_some_new h hg]
      intro kv hkv
      rcases mem_mapSet hkv with rfl | hkv'
      · refine ⟨rfl, ?_⟩
        intro hid
        have hid' : id = i := hid
        show strOr (mapGet nm id)
          (strOr (resolveName c) ("Payer [ID:" ++ id ++ "]")) = n
        rw [hid', hnm]
        exact strOr_of_ne_empty hn _
      · exact hreg kv hkv'

end TF

/-- C2: in transformers.ts pass 1, the demand and collection tables are
consulted after the owner registry and the assessment table and only fill
ids still missing a name: if the map built from owners and assessments
has no entry for an id, and some demand/collection row for that id
yields a valid name, the final name map carries that (first such) name,
and the ledger entry for that id carries it instead of a synthesized
placeholder. -/
theorem claim_C2 :
    ∀ (O A D C : List JsModel.RawRec) (Z : List DT.RawZone) (i n : String),
      DT.mapGet (A.foldl TF.assessStepN (O.foldl TF.ownerStepN [])) i = none →
      TF.firstFill (D ++ C) i = some n →
      DT.mapGet (TF.processMasterData A D C Z O).nameMap i = some n ∧
      (∀ r ∈ (TF.processMasterData A D C Z O).enriched,
        r.assessment_no = i → r.owner_name = n) := by
  intro O A D C Z i n hnone hfirst
  have hmap : DT.mapGet (TF.tfNameMap O A D C) i = some n := by
    unfold TF.tfNameMap
    rw [TF.fillFold_get (D ++ C) _ hnone]
    exact hfirst
  have hne : n ≠ "" := TF.firstFill_ne_empty hfirst
  refine ⟨by rw [TF.tf_pmd_nameMap]; exact hmap, ?_⟩
  intro r hr hid
  have hreginv : ∀ kv ∈ TF.buildRegistryT (TF.tfNameMap O A D C) A D C,
      kv.2.assessment_no = kv.1 ∧ (kv.1 = i → kv.2.owner_name = n) := by
    have hnil : ∀ kv ∈ ([] : DT.Registry),
        kv.2.assessment_no = kv.1 ∧ (kv.1 = i → kv.2.owner_name = n) := by
      intro kv hkv
      simp at hkv
    have hseed := @DT.foldl_inv DT.Registry JsModel.RawRec
      (fun reg => ∀ kv ∈ reg,
        kv.2.assessment_no = kv.1 ∧ (kv.1 = i → kv.2.owner_name = n))
      (TF.seedStepT (TF.tfNameMap O A D C))
      (fun s a hs => TF.tf_inv_seed hmap hne a hs) A [] hnil
    have hdem := @DT.foldl_inv DT.Registry JsModel.RawRec
      (fun reg => ∀ kv ∈ reg,
        kv.2.assessment_no = kv.1 ∧ (kv.1 = i → kv.2.owner_name = n))
      (TF.demandStepT (TF.tfNameMap O A D C))
      (fun s d hs => TF.tf_inv_demand hmap hne d hs) D _ hseed
    have hcol := @DT.foldl_inv DT.Registry JsModel.RawRec
      (fun reg => ∀ kv ∈ reg,
        kv.2.assessment_no = kv.1 ∧ (kv.1 = i → kv.2.owner_name = n))
      (TF.collectStepT (TF.tfNameMap O A D C))
      (fun s c hs => TF.tf_inv_collect hmap hne c hs) C _ hdem
    unfold TF.buildRegistryT
    exact hcol
  rw [TF.tf_pmd_enriched] at hr
  rcases DT.mem_enrichedOf.mp hr with ⟨x, hx, rfl⟩
  rcases List.mem_map.mp hx with ⟨kv, hkv, rfl⟩
  have h3 := hreginv kv hkv
  have hki : kv.1 = i := by
    have hassess : kv.2.assessment_no = i := hid
    rw [← h3.1]
    exact hassess
  exact h3.2 hki

/-- C2 witness: `claim_C2` applied with empty owner and assessment
tables and one demand row carrying a valid name — that name fills the
map and labels the orphan ledger entry. -/
theorem claim_C2_witness :
    DT.mapGet (TF.processMasterData []
      [[("assessment_no", JsModel.JSVal.str "D1"),
        ("owner_name", JsModel.JSVal.str "Valid Person")]] [] [] []).nameMap "D1"
      = some "Valid Person" ∧
    (∀ r ∈ (TF.processMasterData []
      [[("assessment_no", JsModel.JSVal.str "D1"),
        ("owner_name", JsModel.JSVal.str "Valid Person")]] [] [] []).enriched,
      r.assessment_no = "D1" → r.owner_name = "Valid Person") :=
  claim_C2 [] []
    [[("assessment_no", JsModel.JSVal.str "D1"),
      ("owner_name", JsModel.JSVal.str "Valid Person")]] [] [] "D1" "Valid Person"
    rfl (by decide)
